import Mathlib

/-!
Shallow embedding of the taskmaster task-execution engine.

Rust `HashMap<u32, HashSet<u32>>` indices are embedded as association
lists `List (Nat × List Nat)`; the list order of a value models the
(unspecified) iteration order of the corresponding `HashSet`, and the
first matching key wins on lookup, as in a map with unique keys.
Machine `u32` arithmetic is `Nat` with an explicit `% 2^32` where the
source performs `u32` multiplication/addition. `Instant`/`SystemTime`
and `Duration` are modelled as natural numbers of elapsed seconds, with
the current time passed explicitly to the operations that call
`Instant::now()` / `SystemTime::now()`.
-/

namespace TaskMaster

/-- Task status, from `task.rs` (`TaskStatus`). -/
inductive TaskStatus where
  | ToDo
  | InProgress
  | Done
deriving DecidableEq, Repr

/-- Task priority, from `task.rs` (`TaskPriority`). -/
inductive TaskPriority where
  | Low
  | Medium
  | High
deriving DecidableEq, Repr

/-- Task record, from `task.rs` (`Task`). -/
structure Task where
  id : Nat
  title : String
  status : TaskStatus
  priority : TaskPriority
  dependencies : Option (List Nat)
deriving DecidableEq, Repr

/-- `Task::new`, from `task.rs`: fixed fields, `dependencies = None`. -/
def Task.new (id : Nat) (title : String) (status : TaskStatus)
    (priority : TaskPriority) : Task :=
  { id := id, title := title, status := status, priority := priority,
    dependencies := none }

/-- Error type, from `error.rs` (`TaskMasterError`); `io::Error` payloads are
embedded as their display strings. -/
inductive TaskMasterError where
  | TaskNotFound (id : Nat)
  | ProjectNotFound (id : Nat)
  | InvalidOperation (msg : String)
  | StorageError (msg : String)
  | IoError (msg : String)
  | SerializationError (msg : String)
  | ChannelError (msg : String)
deriving DecidableEq, Repr

/-- The `Display` implementation of `TaskMasterError` in `error.rs`. -/
def TaskMasterError.toDisplayString : TaskMasterError → String
  | .TaskNotFound id => "Task with ID " ++ toString id ++ " not found"
  | .InvalidOperation msg => "Invalid operation: " ++ msg
  | .ProjectNotFound id => "Project with ID " ++ toString id ++ " not found"
  | .StorageError msg => "Storage error: " ++ msg
  | .IoError msg => "I/O error: " ++ msg
  | .SerializationError msg => "Serialization error: " ++ msg
  | .ChannelError msg => "Channel error: " ++ msg

/-! ### Association-list embedding of `HashMap<u32, HashSet<u32>>` -/

/-- First-match lookup in an association list, the embedding of
`HashMap::get`. -/
def lookupSet : List (Nat × List Nat) → Nat → Option (List Nat)
  | [], _ => none
  | (k', s) :: rest, k => if k' = k then some s else lookupSet rest k

/-- `HashSet::insert`: add an element if absent (position of new elements in
the backing list is immaterial to set content). -/
def setInsert (s : List Nat) (x : Nat) : List Nat :=
  if x ∈ s then s else s ++ [x]

/-- `map.entry(k).or_insert_with(HashSet::new).insert(v)`: update the entry
for `k` in place, or append a fresh singleton entry. -/
def mapInsert : List (Nat × List Nat) → Nat → Nat → List (Nat × List Nat)
  | [], k, v => [(k, [v])]
  | (k', s) :: rest, k, v =>
    if k' = k then (k', setInsert s v) :: rest else (k', s) :: mapInsert rest k v

/-- `if let Some(set) = map.get_mut(k) { set.remove(v) }`: remove `v` from the
entry for `k` when that entry exists (the entry itself stays, as in the
source). -/
def mapRemove : List (Nat × List Nat) → Nat → Nat → List (Nat × List Nat)
  | [], _, _ => []
  | (k', s) :: rest, k, v =>
    if k' = k then (k', s.erase v) :: rest else (k', s) :: mapRemove rest k v

/-! ### Dependency graph, from `task_dependencies.rs` -/

/-- `DependencyGraph`: forward index `dependencies` (task to the tasks it
depends on) and reverse index `dependents` (task to the tasks depending on
it). -/
structure DependencyGraph where
  dependents : List (Nat × List Nat)
  dependencies : List (Nat × List Nat)
deriving DecidableEq, Repr

/-- `DependencyGraph::new`. -/
def DependencyGraph.new : DependencyGraph := ⟨[], []⟩

/-- `DependencyGraph::get_dependencies`: cloned set of direct dependencies,
empty when absent. -/
def DependencyGraph.get_dependencies (g : DependencyGraph) (task_id : Nat) :
    List Nat :=
  (lookupSet g.dependencies task_id).getD []

/-- `DependencyGraph::get_dependents`: cloned set of direct dependents, empty
when absent. -/
def DependencyGraph.get_dependents (g : DependencyGraph) (task_id : Nat) :
    List Nat :=
  (lookupSet g.dependents task_id).getD []

/-- Keys of the reverse (`dependents`) index, used only to justify
termination of the breadth-first search below. -/
def DependencyGraph.dependentKeys (g : DependencyGraph) : Finset Nat :=
  (g.dependents.map Prod.fst).toFinset

/-- Bound on the length of any adjacency set in the reverse index, used only
to justify termination of the breadth-first search below. -/
def DependencyGraph.maxDependentsLen (g : DependencyGraph) : Nat :=
  g.dependents.foldr (fun p acc => max p.2.length acc) 0

lemma lookupSet_eq_none_of_not_mem_keys {m : List (Nat × List Nat)} {k : Nat}
    (h : k ∉ m.map Prod.fst) : lookupSet m k = none := by
  induction m with
  | nil => rfl
  | cons p rest ih =>
    obtain ⟨k', s⟩ := p
    simp only [List.map_cons, List.mem_cons] at h
    push_neg at h
    simp only [lookupSet, if_neg (Ne.symm h.1)]
    exact ih h.2

lemma get_dependents_eq_nil_of_not_key {g : DependencyGraph} {n : Nat}
    (h : n ∉ g.dependentKeys) : g.get_dependents n = [] := by
  have : lookupSet g.dependents n = none := by
    apply lookupSet_eq_none_of_not_mem_keys
    simpa [DependencyGraph.dependentKeys] using h
  simp [DependencyGraph.get_dependents, this]

lemma lookupSet_length_le {m : List (Nat × List Nat)} {k : Nat} {s : List Nat}
    (h : lookupSet m k = some s) :
    s.length ≤ m.foldr (fun p acc => max p.2.length acc) 0 := by
  induction m with
  | nil => simp [lookupSet] at h
  | cons p rest ih =>
    simp only [lookupSet] at h
    by_cases hk : p.1 = k
    · rw [if_pos hk] at h
      cases h
      simp [List.foldr]
    · rw [if_neg hk] at h
      have := ih h
      simp only [List.foldr]
      omega

lemma get_dependents_length_le (g : DependencyGraph) (n : Nat) :
    (g.get_dependents n).length ≤ g.maxDependentsLen := by
  unfold DependencyGraph.get_dependents DependencyGraph.maxDependentsLen
  cases hl : lookupSet g.dependents n with
  | none => simp
  | some s => simpa using lookupSet_length_le hl

lemma sdiff_insert_card_lt {K : Finset Nat} {visited : Finset Nat} {c : Nat}
    (hc : c ∈ K) (hv : c ∉ visited) :
    (K \ insert c visited).card < (K \ visited).card := by
  apply Finset.card_lt_card
  constructor
  · intro x hx
    simp only [Finset.mem_sdiff, Finset.mem_insert] at hx ⊢
    exact ⟨hx.1, fun h => hx.2 (Or.inr h)⟩
  · intro hsub
    have : c ∈ K \ visited := Finset.mem_sdiff.2 ⟨hc, hv⟩
    have hc2 := hsub this
    simp at hc2

lemma sdiff_insert_card_le (K : Finset Nat) (visited : Finset Nat) (c : Nat) :
    (K \ insert c visited).card ≤ (K \ visited).card := by
  apply Finset.card_le_card
  intro x hx
  simp only [Finset.mem_sdiff, Finset.mem_insert] at hx ⊢
  exact ⟨hx.1, fun h => hx.2 (Or.inr h)⟩

lemma sdiff_insert_eq_of_not_mem {K : Finset Nat} (visited : Finset Nat)
    {c : Nat} (hc : c ∉ K) :
    K \ insert c visited = K \ visited := by
  ext x
  simp only [Finset.mem_sdiff, Finset.mem_insert]
  constructor
  · rintro ⟨hx, h⟩; exact ⟨hx, fun hm => h (Or.inr hm)⟩
  · rintro ⟨hx, h⟩
    refine ⟨hx, ?_⟩
    rintro (rfl | hm)
    · exact hc hx
    · exact h hm

/-- The breadth-first search inside `DependencyGraph::would_create_cycle`:
pop the queue front; report success on reaching `task_id`; otherwise, on
first visit, enqueue all recorded dependents of the current node. -/
def DependencyGraph.bfsDependents (g : DependencyGraph) (task_id : Nat) :
    List Nat → Finset Nat → Bool
  | [], _ => false
  | c :: rest, visited =>
    if c = task_id then true
    else if c ∈ visited then g.bfsDependents task_id rest visited
    else g.bfsDependents task_id (rest ++ g.get_dependents c) (insert c visited)
termination_by queue visited =>
  (g.dependentKeys \ visited).card * (g.maxDependentsLen + 1) + queue.length
decreasing_by
  · simp only [List.length_cons]
    omega
  · rename_i hvis
    by_cases hk : c ∈ g.dependentKeys
    · have h1 := sdiff_insert_card_lt hk hvis
      have h2 := get_dependents_length_le g c
      simp only [List.length_append, List.length_cons]
      set a := (g.dependentKeys \ insert c visited).card
      set b := (g.dependentKeys \ visited).card
      have : a + 1 ≤ b := h1
      calc a * (g.maxDependentsLen + 1) + (rest.length + (g.get_dependents c).length)
          ≤ a * (g.maxDependentsLen + 1) + rest.length + g.maxDependentsLen := by omega
        _ < (a + 1) * (g.maxDependentsLen + 1) + rest.length := by ring_nf; omega
        _ ≤ b * (g.maxDependentsLen + 1) + (rest.length + 1) := by
            have : (a + 1) * (g.maxDependentsLen + 1) ≤ b * (g.maxDependentsLen + 1) :=
              Nat.mul_le_mul_right _ this
            omega
    · have heq := sdiff_insert_eq_of_not_mem visited hk
      have hnil := get_dependents_eq_nil_of_not_key hk
      simp [heq, hnil]

/-- `DependencyGraph::would_create_cycle`: breadth-first search over the
dependents relation starting from the new dependency, succeeding when it
reaches the task being updated. -/
def DependencyGraph.would_create_cycle (g : DependencyGraph)
    (task_id new_dependency_id : Nat) : Bool :=
  g.bfsDependents task_id [new_dependency_id] ∅

/-- `DependencyGraph::add_dependency`: reject a self-dependency, then reject
when `would_create_cycle` fires, and only otherwise record the edge in both
indices; the pre-call graph is returned unchanged on either error. -/
def DependencyGraph.add_dependency (g : DependencyGraph)
    (task_id dependency_id : Nat) :
    Except TaskMasterError Unit × DependencyGraph :=
  if task_id = dependency_id then
    (.error (.InvalidOperation "A task cannot depend on itself"), g)
  else if g.would_create_cycle task_id dependency_id then
    (.error (.InvalidOperation "Adding this dependency would create a cycle"), g)
  else
    (.ok (),
      { dependencies := mapInsert g.dependencies task_id dependency_id,
        dependents := mapInsert g.dependents dependency_id task_id })

/-- `DependencyGraph::remove_dependency`: delete the edge from both indices
when present. -/
def DependencyGraph.remove_dependency (g : DependencyGraph)
    (task_id dependency_id : Nat) : DependencyGraph :=
  { dependencies := mapRemove g.dependencies task_id dependency_id,
    dependents := mapRemove g.dependents dependency_id task_id }

/-! ### Topological sort, `DependencyGraph::get_execution_order` -/

/-- Keys of the forward (`dependencies`) index, used only to justify
termination of the depth-first traversal below. -/
def DependencyGraph.depKeys (g : DependencyGraph) : Finset Nat :=
  (g.dependencies.map Prod.fst).toFinset

/-- Bound on the length of any adjacency set in the forward index, used only
to justify termination of the depth-first traversal below. -/
def DependencyGraph.maxDepsLen (g : DependencyGraph) : Nat :=
  g.dependencies.foldr (fun p acc => max p.2.length acc) 0

lemma get_dependencies_eq_nil_of_not_key {g : DependencyGraph} {n : Nat}
    (h : n ∉ g.depKeys) : g.get_dependencies n = [] := by
  have : lookupSet g.dependencies n = none := by
    apply lookupSet_eq_none_of_not_mem_keys
    simpa [DependencyGraph.depKeys] using h
  simp [DependencyGraph.get_dependencies, this]

lemma get_dependencies_length_le (g : DependencyGraph) (n : Nat) :
    (g.get_dependencies n).length ≤ g.maxDepsLen := by
  unfold DependencyGraph.get_dependencies DependencyGraph.maxDepsLen
  cases hl : lookupSet g.dependencies n with
  | none => simp
  | some s => simpa using lookupSet_length_le hl

/-- Measure of a `visit` call for the termination argument. -/
def visitMeasure (g : DependencyGraph) (temp : Finset Nat) : Nat :=
  (g.depKeys \ temp).card * (2 * g.maxDepsLen + 2) + 1

/-- Measure of a `visitList` call for the termination argument. -/
def visitListMeasure (g : DependencyGraph) (temp : Finset Nat)
    (deps : List Nat) : Nat :=
  (g.depKeys \ temp).card * (2 * g.maxDepsLen + 2) + 2 * deps.length

lemma visitList_measure_lt_visit {g : DependencyGraph} {temp : Finset Nat}
    {node : Nat} (hnode : node ∉ temp) :
    visitListMeasure g (insert node temp) (g.get_dependencies node) <
      visitMeasure g temp := by
  unfold visitMeasure visitListMeasure
  by_cases hk : node ∈ g.depKeys
  · have h1 := sdiff_insert_card_lt hk hnode
    have h2 := get_dependencies_length_le g node
    set a := (g.depKeys \ insert node temp).card
    set b := (g.depKeys \ temp).card
    have hab : a + 1 ≤ b := h1
    have : (a + 1) * (2 * g.maxDepsLen + 2) ≤ b * (2 * g.maxDepsLen + 2) :=
      Nat.mul_le_mul_right _ hab
    nlinarith
  · have heq := sdiff_insert_eq_of_not_mem temp hk
    have hnil := get_dependencies_eq_nil_of_not_key hk
    rw [heq, hnil]
    simp

lemma visit_measure_lt_visitList {g : DependencyGraph} {temp : Finset Nat}
    {d : Nat} {ds : List Nat} :
    visitMeasure g temp < visitListMeasure g temp (d :: ds) := by
  unfold visitMeasure visitListMeasure
  simp only [List.length_cons]
  omega

lemma visitList_measure_lt_cons {g : DependencyGraph} {temp : Finset Nat}
    {d : Nat} {ds : List Nat} :
    visitListMeasure g temp ds < visitListMeasure g temp (d :: ds) := by
  unfold visitListMeasure
  simp only [List.length_cons]
  omega

mutual

/-- The recursive helper `visit` inside `get_execution_order`: report a cycle
when the node carries a temporary mark, skip permanently marked nodes, and
otherwise temporarily mark the node, visit all its dependencies, then
permanently mark it and append it to the result when it belongs to the input
id set.  The temporary-mark set is restored on return in the source, so it is
a plain parameter here; the permanent-mark set and result list are threaded
through. -/
def visit (g : DependencyGraph) (task_ids : Finset Nat) (node : Nat)
    (temp : Finset Nat) (perm : Finset Nat) (result : List Nat) :
    Except TaskMasterError (Finset Nat × List Nat) :=
  if node ∈ temp then
    .error (.InvalidOperation
      ("Circular dependency detected involving task " ++ toString node))
  else if node ∈ perm then .ok (perm, result)
  else
    match visitList g task_ids (g.get_dependencies node) (insert node temp)
        perm result with
    | .error e => .error e
    | .ok (p, r) =>
      .ok (insert node p, if node ∈ task_ids then r ++ [node] else r)
termination_by visitMeasure g temp
decreasing_by
  exact visitList_measure_lt_visit (by assumption)

/-- Iteration of `visit` over the dependency set of a node, in the iteration
order of the backing set. -/
def visitList (g : DependencyGraph) (task_ids : Finset Nat) (deps : List Nat)
    (temp : Finset Nat) (perm : Finset Nat) (result : List Nat) :
    Except TaskMasterError (Finset Nat × List Nat) :=
  match deps with
  | [] => .ok (perm, result)
  | d :: ds =>
    match visit g task_ids d temp perm result with
    | .error e => .error e
    | .ok (p, r) => visitList g task_ids ds temp p r
termination_by visitListMeasure g temp deps
decreasing_by
  · exact visit_measure_lt_visitList
  · exact visitList_measure_lt_cons

end

/-- The outer loop of `get_execution_order`: visit each input task in input
order, skipping tasks already permanently marked. -/
def orderLoop (g : DependencyGraph) (task_ids : Finset Nat) :
    List Task → Finset Nat → List Nat →
    Except TaskMasterError (Finset Nat × List Nat)
  | [], perm, result => .ok (perm, result)
  | t :: ts, perm, result =>
    if t.id ∈ perm then orderLoop g task_ids ts perm result
    else
      match visit g task_ids t.id ∅ perm result with
      | .error e => .error e
      | .ok (p, r) => orderLoop g task_ids ts p r

/-- `DependencyGraph::get_execution_order`: depth-first topological sort of
the input tasks against the forward index, emitting only ids present in the
input list. -/
def DependencyGraph.get_execution_order (g : DependencyGraph)
    (tasks : List Task) : Except TaskMasterError (List Nat) :=
  match orderLoop g (tasks.map Task.id).toFinset tasks ∅ [] with
  | .error e => .error e
  | .ok (_, result) => .ok result

/-- The depends-on edge relation of the forward index: `DepRel g a b` holds
when task `a` directly depends on task `b`. -/
def DepRel (g : DependencyGraph) (a b : Nat) : Prop :=
  b ∈ g.get_dependencies a

instance (g : DependencyGraph) (a b : Nat) : Decidable (DepRel g a b) := by
  unfold DepRel; infer_instance

/-- A graph is acyclic when no task transitively depends on itself. -/
def Acyclic (g : DependencyGraph) : Prop :=
  ∀ n, ¬ Relation.TransGen (DepRel g) n n

/-- Transitive-reflexive reachability along depends-on edges. -/
def Reach (g : DependencyGraph) : Nat → Nat → Prop :=
  Relation.ReflTransGen (DepRel g)

/-- Invariant of the topological sort state: the result list is duplicate
free, contains exactly the permanently marked members of the input id set,
the permanently marked set is closed under dependencies, and every result
entry appears after all its in-input dependencies. -/
def Inv (g : DependencyGraph) (task_ids : Finset Nat) (perm : Finset Nat)
    (result : List Nat) : Prop :=
  result.Nodup ∧
  (∀ x, x ∈ result ↔ x ∈ perm ∧ x ∈ task_ids) ∧
  (∀ a ∈ perm, ∀ d ∈ g.get_dependencies a, d ∈ perm) ∧
  (∀ pre t post, result = pre ++ t :: post →
    ∀ d ∈ g.get_dependencies t, d ∈ task_ids → d ∈ pre)

lemma visit_eq_of_tempMark {g : DependencyGraph} {task_ids : Finset Nat}
    {node : Nat} {temp perm : Finset Nat} {result : List Nat}
    (h1 : node ∈ temp) :
    visit g task_ids node temp perm result =
      .error (.InvalidOperation
        ("Circular dependency detected involving task " ++ toString node)) := by
  rw [visit]
  simp [h1]

lemma visit_eq_of_permMark {g : DependencyGraph} {task_ids : Finset Nat}
    {node : Nat} {temp perm : Finset Nat} {result : List Nat}
    (h1 : node ∉ temp) (h2 : node ∈ perm) :
    visit g task_ids node temp perm result = .ok (perm, result) := by
  rw [visit]
  simp [h1, h2]

lemma visit_eq_of_ok {g : DependencyGraph} {task_ids : Finset Nat}
    {node : Nat} {temp perm : Finset Nat} {result : List Nat}
    {p : Finset Nat} {r : List Nat}
    (h1 : node ∉ temp) (h2 : node ∉ perm)
    (h3 : visitList g task_ids (g.get_dependencies node) (insert node temp)
      perm result = .ok (p, r)) :
    visit g task_ids node temp perm result =
      .ok (insert node p, if node ∈ task_ids then r ++ [node] else r) := by
  rw [visit]
  simp [h1, h2, h3]

lemma visitList_eq_nil {g : DependencyGraph} {task_ids : Finset Nat}
    {temp perm : Finset Nat} {result : List Nat} :
    visitList g task_ids [] temp perm result = .ok (perm, result) := by
  rw [visitList]

lemma visitList_eq_cons_ok {g : DependencyGraph} {task_ids : Finset Nat}
    {d : Nat} {ds : List Nat} {temp perm : Finset Nat} {result : List Nat}
    {p : Finset Nat} {r : List Nat}
    (h : visit g task_ids d temp perm result = .ok (p, r)) :
    visitList g task_ids (d :: ds) temp perm result =
      visitList g task_ids ds temp p r := by
  rw [visitList]
  simp [h]

lemma append_singleton_eq_split {l : List Nat} {a : Nat}
    {pre post : List Nat} {t : Nat} (h : l ++ [a] = pre ++ t :: post) :
    (∃ post', l = pre ++ t :: post' ∧ post = post' ++ [a]) ∨
      (t = a ∧ pre = l ∧ post = []) := by
  rcases List.eq_nil_or_concat post with rfl | ⟨post', b, rfl⟩
  · have := List.append_inj' h (by simp)
    obtain ⟨h1, h2⟩ := this
    right
    simp at h2
    exact ⟨h2.symm, h1.symm, rfl⟩
  · rw [List.concat_eq_append,
      show pre ++ t :: (post' ++ [b]) = (pre ++ t :: post') ++ [b] by simp] at h
    have := List.append_inj' h (by simp)
    obtain ⟨h1, h2⟩ := this
    left
    simp at h2
    exact ⟨post', h1, by rw [List.concat_eq_append, h2]⟩

/-- Postcondition of a successful `visit` call. -/
def VisitOk (g : DependencyGraph) (task_ids : Finset Nat) (node : Nat)
    (temp perm : Finset Nat) (result : List Nat) : Prop :=
  ∃ p r, visit g task_ids node temp perm result = .ok (p, r) ∧
    perm ⊆ p ∧ node ∈ p ∧ Inv g task_ids p r ∧ (∃ s, r = result ++ s) ∧
    (∀ x ∈ p, x ∈ perm ∨ Reach g node x)

/-- Postcondition of a successful `visitList` call. -/
def VisitListOk (g : DependencyGraph) (task_ids : Finset Nat)
    (deps : List Nat) (temp perm : Finset Nat) (result : List Nat) : Prop :=
  ∃ p r, visitList g task_ids deps temp perm result = .ok (p, r) ∧
    perm ⊆ p ∧ (∀ d ∈ deps, d ∈ p) ∧ Inv g task_ids p r ∧
    (∃ s, r = result ++ s) ∧
    (∀ x ∈ p, x ∈ perm ∨ ∃ d ∈ deps, Reach g d x)

lemma visit_visitList_sound (g : DependencyGraph) (task_ids : Finset Nat)
    (hacyc : Acyclic g) :
    (∀ node temp perm result,
      (∀ x ∈ temp, ¬ Reach g node x) → Inv g task_ids perm result →
      VisitOk g task_ids node temp perm result) ∧
    (∀ deps temp perm result,
      (∀ d ∈ deps, ∀ x ∈ temp, ¬ Reach g d x) → Inv g task_ids perm result →
      VisitListOk g task_ids deps temp perm result) := by
  refine visit.mutual_induct g task_ids
    (fun node temp perm result =>
      (∀ x ∈ temp, ¬ Reach g node x) → Inv g task_ids perm result →
      VisitOk g task_ids node temp perm result)
    (fun deps temp perm result =>
      (∀ d ∈ deps, ∀ x ∈ temp, ¬ Reach g d x) → Inv g task_ids perm result →
      VisitListOk g task_ids deps temp perm result)
    ?_ ?_ ?_ ?_ ?_ ?_ ?_
  · -- node carries a temporary mark: impossible under the precondition
    intro node temp perm result htemp hpre _hinv
    exact absurd Relation.ReflTransGen.refl (hpre node htemp)
  · -- node already permanently marked
    intro node temp perm result h1 h2 _hpre hinv
    exact ⟨perm, result, visit_eq_of_permMark h1 h2, subset_rfl, h2, hinv,
      ⟨[], by simp⟩, fun x hx => Or.inl hx⟩
  · -- the recursive sweep cannot error under the precondition
    intro node temp perm result h1 h2 e herr ih hpre hinv
    have hpre2 : ∀ d ∈ g.get_dependencies node, ∀ x ∈ insert node temp,
        ¬ Reach g d x := by
      intro d hd x hx hreach
      rcases Finset.mem_insert.1 hx with rfl | hx'
      · exact hacyc x (Relation.TransGen.head' (show DepRel g x d from hd) hreach)
      · exact hpre x hx'
          (Relation.ReflTransGen.head (show DepRel g node d from hd) hreach)
    obtain ⟨p, r, hok, _⟩ := ih hpre2 hinv
    rw [herr] at hok
    cases hok
  · -- the recursive sweep succeeded: mark the node and emit it
    intro node temp perm result h1 h2 p r hlok ih hpre hinv
    have hpre2 : ∀ d ∈ g.get_dependencies node, ∀ x ∈ insert node temp,
        ¬ Reach g d x := by
      intro d hd x hx hreach
      rcases Finset.mem_insert.1 hx with rfl | hx'
      · exact hacyc x (Relation.TransGen.head' (show DepRel g x d from hd) hreach)
      · exact hpre x hx'
          (Relation.ReflTransGen.head (show DepRel g node d from hd) hreach)
    obtain ⟨p1, r1, hok1, hsub, hdeps, hinv', hsfx, hreach'⟩ := ih hpre2 hinv
    rw [hlok] at hok1
    have hpr : p = p1 ∧ r = r1 := by
      have := hok1
      simp only [Except.ok.injEq, Prod.mk.injEq] at this
      exact this
    obtain ⟨rfl, rfl⟩ := hpr
    obtain ⟨s, hs⟩ := hsfx
    have hnode_p : node ∉ p := by
      intro hmem
      rcases hreach' node hmem with hperm' | ⟨d, hd, hr⟩
      · exact h2 hperm'
      · exact hacyc node (Relation.TransGen.head' (show DepRel g node d from hd) hr)
    obtain ⟨hnd, hmem, hclosed, hord⟩ := hinv'
    refine ⟨insert node p, if node ∈ task_ids then r ++ [node] else r,
      visit_eq_of_ok h1 h2 hlok, hsub.trans (Finset.subset_insert _ _),
      Finset.mem_insert_self _ _, ?_, ?_, ?_⟩
    · by_cases hti : node ∈ task_ids
      · simp only [if_pos hti]
        refine ⟨?_, ?_, ?_, ?_⟩
        · refine List.Nodup.append hnd (List.nodup_singleton _) ?_
          intro x hx hx'
          simp only [List.mem_singleton] at hx'
          subst hx'
          exact hnode_p ((hmem x).1 hx).1
        · intro x
          simp only [List.mem_append, List.mem_singleton, Finset.mem_insert]
          constructor
          · rintro (hx | rfl)
            · obtain ⟨hp, ht⟩ := (hmem x).1 hx
              exact ⟨Or.inr hp, ht⟩
            · exact ⟨Or.inl rfl, hti⟩
          · rintro ⟨(rfl | hp), ht⟩
            · exact Or.inr rfl
            · exact Or.inl ((hmem x).2 ⟨hp, ht⟩)
        · intro a ha d hd
          rcases Finset.mem_insert.1 ha with rfl | hap
          · exact Finset.mem_insert_of_mem (hdeps d hd)
          · exact Finset.mem_insert_of_mem (hclosed a hap d hd)
        · intro pre t post hsplit d hd hdt
          rcases append_singleton_eq_split hsplit with ⟨post', hr, _⟩ | ⟨rfl, rfl, _⟩
          · exact hord pre t post' hr d hd hdt
          · exact (hmem d).2 ⟨hdeps d hd, hdt⟩
      · simp only [if_neg hti]
        refine ⟨hnd, ?_, ?_, hord⟩
        · intro x
          rw [hmem x]
          simp only [Finset.mem_insert]
          constructor
          · rintro ⟨hp, ht⟩
            exact ⟨Or.inr hp, ht⟩
          · rintro ⟨(rfl | hp), ht⟩
            · exact absurd ht hti
            · exact ⟨hp, ht⟩
        · intro a ha d hd
          rcases Finset.mem_insert.1 ha with rfl | hap
          · exact Finset.mem_insert_of_mem (hdeps d hd)
          · exact Finset.mem_insert_of_mem (hclosed a hap d hd)
    · by_cases hti : node ∈ task_ids
      · exact ⟨s ++ [node], by simp [hti, hs]⟩
      · exact ⟨s, by simp [hti, hs]⟩
    · intro x hx
      rcases Finset.mem_insert.1 hx with rfl | hxp
      · exact Or.inr Relation.ReflTransGen.refl
      · rcases hreach' x hxp with hperm' | ⟨d, hd, hr⟩
        · exact Or.inl hperm'
        · exact Or.inr
            (Relation.ReflTransGen.head (show DepRel g node d from hd) hr)
  · -- empty dependency list
    intro temp perm result _hpre hinv
    exact ⟨perm, result, visitList_eq_nil, subset_rfl, by simp, hinv,
      ⟨[], by simp⟩, fun x hx => Or.inl hx⟩
  · -- head visit cannot error under the precondition
    intro temp perm result d ds e herr ih hpre hinv
    obtain ⟨p, r, hok, _⟩ :=
      ih (fun x hx => hpre d (List.mem_cons_self d ds) x hx) hinv
    rw [herr] at hok
    cases hok
  · -- head visit succeeded, continue with the tail
    intro temp perm result d ds p r hvok ih1 ih2 hpre hinv
    obtain ⟨p1, r1, hok1, hsub1, hdmem, hinv1, hsfx1, hreach1⟩ :=
      ih1 (fun x hx => hpre d (List.mem_cons_self d ds) x hx) hinv
    rw [hvok] at hok1
    have hpr : p = p1 ∧ r = r1 := by
      have := hok1
      simp only [Except.ok.injEq, Prod.mk.injEq] at this
      exact this
    obtain ⟨rfl, rfl⟩ := hpr
    obtain ⟨s1, hs1⟩ := hsfx1
    obtain ⟨p2, r2, hok2, hsub2, hds2, hinv2, hsfx2, hreach2⟩ :=
      ih2 (fun d' hd' x hx => hpre d' (List.mem_cons_of_mem d hd') x hx) hinv1
    obtain ⟨s2, hs2⟩ := hsfx2
    refine ⟨p2, r2, ?_, hsub1.trans hsub2, ?_, hinv2,
      ⟨s1 ++ s2, by simp [hs2, hs1]⟩, ?_⟩
    · rw [visitList_eq_cons_ok hvok]
      exact hok2
    · intro d' hd'
      rcases List.mem_cons.1 hd' with rfl | hd''
      · exact hsub2 hdmem
      · exact hds2 d' hd''
    · intro x hx
      rcases hreach2 x hx with hxp | ⟨d', hd', hr⟩
      · rcases hreach1 x hxp with hperm | hr
        · exact Or.inl hperm
        · exact Or.inr ⟨d, List.mem_cons_self d ds, hr⟩
      · exact Or.inr ⟨d', List.mem_cons_of_mem d hd', hr⟩

lemma orderLoop_sound (g : DependencyGraph) (task_ids : Finset Nat)
    (hacyc : Acyclic g) :
    ∀ (tasks : List Task) (perm : Finset Nat) (result : List Nat),
      Inv g task_ids perm result →
      ∃ p r, orderLoop g task_ids tasks perm result = .ok (p, r) ∧
        perm ⊆ p ∧ Inv g task_ids p r ∧ (∃ s, r = result ++ s) ∧
        (∀ t ∈ tasks, t.id ∈ p) := by
  intro tasks
  induction tasks with
  | nil =>
    intro perm result hinv
    exact ⟨perm, result, rfl, subset_rfl, hinv, ⟨[], by simp⟩, by simp⟩
  | cons t ts ih =>
    intro perm result hinv
    by_cases hp : t.id ∈ perm
    · obtain ⟨p, r, hok, hsub, hinv', hsfx, hall⟩ := ih perm result hinv
      refine ⟨p, r, ?_, hsub, hinv', hsfx, ?_⟩
      · simpa [orderLoop, hp] using hok
      · intro t' ht'
        rcases List.mem_cons.1 ht' with rfl | ht''
        · exact hsub hp
        · exact hall t' ht''
    · obtain ⟨p1, r1, hok1, hsub1, hid1, hinv1, ⟨s1, hs1⟩, _⟩ :=
        (visit_visitList_sound g task_ids hacyc).1 t.id ∅ perm result
          (by simp) hinv
      obtain ⟨p2, r2, hok2, hsub2, hinv2, ⟨s2, hs2⟩, hall2⟩ := ih p1 r1 hinv1
      refine ⟨p2, r2, ?_, hsub1.trans hsub2, hinv2,
        ⟨s1 ++ s2, by simp [hs2, hs1]⟩, ?_⟩
      · simp only [orderLoop, if_neg hp, hok1]
        exact hok2
      · intro t' ht'
        rcases List.mem_cons.1 ht' with rfl | ht''
        · exact hsub2 hid1
        · exact hall2 t' ht''

lemma indexOf_append_cons_self {pre post : List Nat} {t : Nat}
    (h : t ∉ pre) : (pre ++ t :: post).indexOf t = pre.length := by
  induction pre with
  | nil => simp
  | cons a as ihp =>
    have hat : a ≠ t := fun hc => h (by simp [hc])
    simp only [List.cons_append, List.indexOf_cons_ne _ hat, List.length_cons]
    rw [ihp (fun hc => h (List.mem_cons_of_mem a hc))]

/-- Full specification of `get_execution_order` on an acyclic graph: it
succeeds, and the returned list is duplicate free, contains exactly the input
task ids, and places every in-input dependency strictly before each task that
declares it. -/
lemma get_execution_order_spec (g : DependencyGraph) (tasks : List Task)
    (hacyc : Acyclic g) :
    ∃ l, g.get_execution_order tasks = .ok l ∧ l.Nodup ∧
      (∀ x, x ∈ l ↔ x ∈ tasks.map Task.id) ∧
      (∀ t d, t ∈ tasks.map Task.id → d ∈ tasks.map Task.id →
        d ∈ g.get_dependencies t → l.indexOf d < l.indexOf t) := by
  have hinv0 : Inv g (tasks.map Task.id).toFinset ∅ [] := by
    refine ⟨List.nodup_nil, by simp, by simp, ?_⟩
    intro pre t post h
    exact absurd h (by simp)
  obtain ⟨p, r, hok, _, ⟨hnd, hmem, _hclosed, hord⟩, _, hall⟩ :=
    orderLoop_sound g (tasks.map Task.id).toFinset hacyc tasks ∅ [] hinv0
  have hmem' : ∀ x, x ∈ r ↔ x ∈ tasks.map Task.id := by
    intro x
    rw [hmem x]
    constructor
    · rintro ⟨_, hx⟩
      simpa using hx
    · intro hx
      rcases List.mem_map.1 hx with ⟨t, ht, rfl⟩
      exact ⟨hall t ht, by simpa using hx⟩
  refine ⟨r, ?_, hnd, hmem', ?_⟩
  · simp only [DependencyGraph.get_execution_order, hok]
  · intro t d hti hdi hdep
    have htr : t ∈ r := (hmem' t).2 hti
    obtain ⟨pre, post, hsplit⟩ := List.append_of_mem htr
    have hdpre : d ∈ pre :=
      hord pre t post hsplit d hdep (by simpa using hdi)
    have htpre : t ∉ pre := by
      intro hcon
      rw [hsplit] at hnd
      have := List.disjoint_of_nodup_append hnd
      exact this hcon (List.mem_cons_self _ _)
    rw [hsplit, List.indexOf_append_of_mem hdpre, indexOf_append_cons_self htpre]
    exact List.indexOf_lt_length.2 hdpre

/-! ### Map-level lemmas for the two indices -/

lemma lookupSet_mapInsert (m : List (Nat × List Nat)) (k v k' : Nat) :
    (lookupSet (mapInsert m k v) k').getD [] =
      if k' = k then setInsert ((lookupSet m k).getD []) v
      else (lookupSet m k').getD [] := by
  induction m with
  | nil =>
    by_cases h : k' = k
    · subst h; simp [mapInsert, lookupSet, setInsert]
    · have h2 : ¬ k = k' := fun hh => h hh.symm
      simp [mapInsert, lookupSet, h, h2]
  | cons p rest ih =>
    obtain ⟨k0, s⟩ := p
    by_cases h0 : k0 = k
    · subst h0
      by_cases h' : k' = k0
      · subst h'
        simp [mapInsert, lookupSet]
      · have h'2 : ¬ k0 = k' := fun hh => h' hh.symm
        simp [mapInsert, lookupSet, h', h'2]
    · by_cases h' : k0 = k'
      · subst h'
        simp [mapInsert, lookupSet, h0]
      · have hq : ¬ k' = k0 := fun hh => h' hh.symm
        simpa [mapInsert, lookupSet, h0, h', hq] using ih

lemma lookupSet_mapRemove (m : List (Nat × List Nat)) (k v k' : Nat) :
    (lookupSet (mapRemove m k v) k').getD [] =
      if k' = k then ((lookupSet m k).getD []).erase v
      else (lookupSet m k').getD [] := by
  induction m with
  | nil =>
    by_cases h : k' = k
    · subst h; simp [mapRemove, lookupSet]
    · have h2 : ¬ k = k' := fun hh => h hh.symm
      simp [mapRemove, lookupSet, h, h2]
  | cons p rest ih =>
    obtain ⟨k0, s⟩ := p
    by_cases h0 : k0 = k
    · subst h0
      by_cases h' : k' = k0
      · subst h'
        simp [mapRemove, lookupSet]
      · have h'2 : ¬ k0 = k' := fun hh => h' hh.symm
        simp [mapRemove, lookupSet, h', h'2]
    · by_cases h' : k0 = k'
      · subst h'
        simp [mapRemove, lookupSet, h0]
      · have hq : ¬ k' = k0 := fun hh => h' hh.symm
        simpa [mapRemove, lookupSet, h0, h', hq] using ih

lemma mem_setInsert (a x : Nat) (s : List Nat) :
    a ∈ setInsert s x ↔ a = x ∨ a ∈ s := by
  unfold setInsert
  by_cases h : x ∈ s
  · simp only [if_pos h]
    constructor
    · exact Or.inr
    · rintro (rfl | hm)
      · exact h
      · exact hm
  · simp [if_neg h, or_comm]

lemma nodup_setInsert {s : List Nat} (hs : s.Nodup) (x : Nat) :
    (setInsert s x).Nodup := by
  unfold setInsert
  by_cases h : x ∈ s
  · simpa [if_pos h]
  · rw [if_neg h]
    refine List.Nodup.append hs (List.nodup_singleton x) ?_
    intro a ha hb
    simp only [List.mem_singleton] at hb
    subst hb
    exact h ha

/-! ### The mirror invariant between the two indices (claim C9) -/

/-- The two indices record the same edge set, each from its own side. -/
def Mirror (g : DependencyGraph) : Prop :=
  ∀ t d, d ∈ g.get_dependencies t ↔ t ∈ g.get_dependents d

/-- Every adjacency set in either index is duplicate-free, as a `HashSet`
is. -/
def SetsNodup (g : DependencyGraph) : Prop :=
  (∀ k, (g.get_dependencies k).Nodup) ∧ (∀ k, (g.get_dependents k).Nodup)

/-- One mutating call on the graph: `add_dependency` or
`remove_dependency`. -/
inductive GraphOp where
  | add (task_id dependency_id : Nat)
  | remove (task_id dependency_id : Nat)
deriving DecidableEq, Repr

/-- Apply one mutating call; an `add_dependency` that errors leaves the graph
it returned unchanged. -/
def applyOp (g : DependencyGraph) : GraphOp → DependencyGraph
  | .add t d => (g.add_dependency t d).2
  | .remove t d => g.remove_dependency t d

/-- The graph reached from a fresh `DependencyGraph::new` by a call
sequence. -/
def buildGraph (ops : List GraphOp) : DependencyGraph :=
  ops.foldl applyOp DependencyGraph.new

lemma mirror_and_nodup_applyOp {g : DependencyGraph}
    (hm : Mirror g) (hn : SetsNodup g) (op : GraphOp) :
    Mirror (applyOp g op) ∧ SetsNodup (applyOp g op) := by
  cases op with
  | add t d =>
    show Mirror (g.add_dependency t d).2 ∧ SetsNodup (g.add_dependency t d).2
    unfold DependencyGraph.add_dependency
    by_cases h1 : t = d
    · simpa [h1] using ⟨hm, hn⟩
    by_cases h2 : g.would_create_cycle t d = true
    · simpa [h1, h2] using ⟨hm, hn⟩
    simp only [h1, h2, if_false, ite_false]
    have hmm : ∀ a b, b ∈ (lookupSet g.dependencies a).getD [] ↔
        a ∈ (lookupSet g.dependents b).getD [] := hm
    constructor
    · intro t' d'
      show d' ∈ (lookupSet (mapInsert g.dependencies t d) t').getD [] ↔
        t' ∈ (lookupSet (mapInsert g.dependents d t) d').getD []
      rw [lookupSet_mapInsert, lookupSet_mapInsert]
      by_cases ht : t' = t
      · by_cases hd : d' = d
        · simp only [if_pos ht, if_pos hd, mem_setInsert]
          simp [ht, hd]
        · simp only [if_pos ht, if_neg hd, mem_setInsert]
          rw [ht, ← hmm t d']
          simp [hd]
      · by_cases hd : d' = d
        · simp only [if_neg ht, if_pos hd, mem_setInsert]
          rw [hd, hmm t' d]
          simp [ht]
        · simp only [if_neg ht, if_neg hd]
          exact hmm t' d'
    · constructor
      · intro k
        show ((lookupSet (mapInsert g.dependencies t d) k).getD []).Nodup
        rw [lookupSet_mapInsert]
        by_cases hk : k = t
        · simp only [if_pos hk]
          exact nodup_setInsert (hn.1 t) d
        · simpa [if_neg hk] using hn.1 k
      · intro k
        show ((lookupSet (mapInsert g.dependents d t) k).getD []).Nodup
        rw [lookupSet_mapInsert]
        by_cases hk : k = d
        · simp only [if_pos hk]
          exact nodup_setInsert (hn.2 d) t
        · simpa [if_neg hk] using hn.2 k
  | remove t d =>
    show Mirror (g.remove_dependency t d) ∧ SetsNodup (g.remove_dependency t d)
    unfold DependencyGraph.remove_dependency
    have hmm : ∀ a b, b ∈ (lookupSet g.dependencies a).getD [] ↔
        a ∈ (lookupSet g.dependents b).getD [] := hm
    have hn1 : ∀ k, ((lookupSet g.dependencies k).getD []).Nodup := hn.1
    have hn2 : ∀ k, ((lookupSet g.dependents k).getD []).Nodup := hn.2
    constructor
    · intro t' d'
      show d' ∈ (lookupSet (mapRemove g.dependencies t d) t').getD [] ↔
        t' ∈ (lookupSet (mapRemove g.dependents d t) d').getD []
      rw [lookupSet_mapRemove, lookupSet_mapRemove]
      by_cases ht : t' = t
      · by_cases hd : d' = d
        · simp only [if_pos ht, if_pos hd]
          rw [List.Nodup.mem_erase_iff (hn1 t), List.Nodup.mem_erase_iff (hn2 d)]
          simp [ht, hd]
        · simp only [if_pos ht, if_neg hd]
          rw [List.Nodup.mem_erase_iff (hn1 t), ht, ← hmm t d']
          simp [hd]
      · by_cases hd : d' = d
        · simp only [if_neg ht, if_pos hd]
          rw [List.Nodup.mem_erase_iff (hn2 d), hd, hmm t' d]
          simp [ht]
        · simp only [if_neg ht, if_neg hd]
          exact hmm t' d'
    · constructor
      · intro k
        show ((lookupSet (mapRemove g.dependencies t d) k).getD []).Nodup
        rw [lookupSet_mapRemove]
        by_cases hk : k = t
        · simp only [if_pos hk]
          exact (hn1 t).erase d
        · simpa [if_neg hk] using hn1 k
      · intro k
        show ((lookupSet (mapRemove g.dependents d t) k).getD []).Nodup
        rw [lookupSet_mapRemove]
        by_cases hk : k = d
        · simp only [if_pos hk]
          exact (hn2 d).erase t
        · simpa [if_neg hk] using hn2 k

lemma mirror_and_nodup_foldl (ops : List GraphOp) :
    ∀ g : DependencyGraph, Mirror g → SetsNodup g →
      Mirror (ops.foldl applyOp g) ∧ SetsNodup (ops.foldl applyOp g) := by
  induction ops with
  | nil => intro g hm hn; exact ⟨hm, hn⟩
  | cons op rest ih =>
    intro g hm hn
    have h := mirror_and_nodup_applyOp hm hn op
    simpa [List.foldl] using ih (applyOp g op) h.1 h.2

lemma graph_after_two_adds :
    DependencyGraph.new.add_dependency 2 1 =
      (.ok (), ⟨[(1, [2])], [(2, [1])]⟩) ∧
    (DependencyGraph.mk [(1, [2])] [(2, [1])]).add_dependency 1 2 =
      (.ok (), ⟨[(1, [2]), (2, [1])], [(2, [1]), (1, [2])]⟩) := by
  constructor
  · simp [DependencyGraph.add_dependency, DependencyGraph.would_create_cycle,
      DependencyGraph.bfsDependents, DependencyGraph.get_dependents,
      DependencyGraph.new, lookupSet, mapInsert, setInsert]
  · simp [DependencyGraph.add_dependency, DependencyGraph.would_create_cycle,
      DependencyGraph.bfsDependents, DependencyGraph.get_dependents,
      lookupSet, mapInsert, setInsert]

lemma acyclic_of_decreasing (g : DependencyGraph)
    (h : ∀ a b, DepRel g a b → b < a) : Acyclic g := by
  intro n hn
  have hlt : ∀ a b, Relation.TransGen (DepRel g) a b → b < a := by
    intro a b htg
    induction htg with
    | single h1 => exact h _ _ h1
    | tail _hab hbc ih => exact (h _ _ hbc).trans ih
  exact absurd (hlt n n hn) (lt_irrefl n)

/-- The set of depends-on edges recorded in the forward index. -/
def edgePairs (g : DependencyGraph) : Finset (Nat × Nat) :=
  (g.dependencies.flatMap (fun p => p.2.map (fun d => (p.1, d)))).toFinset

/-- The four example tasks of the execution-order example. -/
def exampleTasks : List Task :=
  [Task.new 1 "Task 1" .ToDo .Medium, Task.new 2 "Task 2" .ToDo .Medium,
    Task.new 3 "Task 3" .ToDo .Medium, Task.new 4 "Task 4" .ToDo .Medium]

/-- The graph produced by `add_dependency` calls 2 on 1, 3 on 2, 4 on 3. -/
def exampleGraph : DependencyGraph :=
  ⟨[(1, [2]), (2, [3]), (3, [4])], [(2, [1]), (3, [2]), (4, [3])]⟩

/-- A graph whose only dependency set is stored as the list `[1, 2]`. -/
def hashOrderGraphA : DependencyGraph := ⟨[(1, [3]), (2, [3])], [(3, [1, 2])]⟩

/-- The same edge set as `hashOrderGraphA`, with the dependency set of task 3
stored in the other iteration order `[2, 1]`, as a rehash may produce. -/
def hashOrderGraphB : DependencyGraph := ⟨[(1, [3]), (2, [3])], [(3, [2, 1])]⟩

/-- Input list for the iteration-order counterexample: task 3 first. -/
def hashOrderTasks : List Task :=
  [Task.new 3 "Task 3" .ToDo .Medium, Task.new 1 "Task 1" .ToDo .Medium,
    Task.new 2 "Task 2" .ToDo .Medium]

lemma mirror_buildGraph (ops : List GraphOp) : Mirror (buildGraph ops) := by
  have hm : Mirror DependencyGraph.new := by
    intro t d
    simp [DependencyGraph.get_dependencies, DependencyGraph.get_dependents,
      DependencyGraph.new, lookupSet]
  have hn : SetsNodup DependencyGraph.new := by
    constructor <;> intro k <;>
      simp [DependencyGraph.get_dependencies, DependencyGraph.get_dependents,
        DependencyGraph.new, lookupSet]
  exact (mirror_and_nodup_foldl ops DependencyGraph.new hm hn).1

/-! ### Generic association-list helpers for `HashMap<K, V>` -/

/-- `HashMap::get`: first-match lookup. -/
def lookupBy {κ ν : Type} [DecidableEq κ] : List (κ × ν) → κ → Option ν
  | [], _ => none
  | (k', v) :: rest, k => if k' = k then some v else lookupBy rest k

/-- `HashMap::insert`: replace the value under an existing key, or append a
new entry. -/
def insertKeyBy {κ ν : Type} [DecidableEq κ] :
    List (κ × ν) → κ → ν → List (κ × ν)
  | [], k, v => [(k, v)]
  | (k', v') :: rest, k, v =>
    if k' = k then (k', v) :: rest else (k', v') :: insertKeyBy rest k v

/-- `HashMap::remove`: drop the entry under a key. -/
def removeKeyBy {κ ν : Type} [DecidableEq κ] (m : List (κ × ν)) (k : κ) :
    List (κ × ν) :=
  m.filter (fun p => decide (p.1 ≠ k))

/-! ### Worker pool, from `worker_pool.rs` -/

/-- `TaskJob`: id, shared task payload, and the unit of work to run. -/
structure TaskJob where
  id : Nat
  task : Task
  handler : Task → Except TaskMasterError Unit

/-- `JobResult`: produced once per executed job. -/
structure JobResult where
  task_id : Nat
  success : Bool
  error_message : Option String
deriving DecidableEq, Repr

/-- `Message`: what a worker dequeues from the shared channel. -/
inductive Message where
  | NewTask (job : TaskJob)
  | Terminate

/-- The `Message::NewTask` arm of the worker loop in `Worker::new`: run the
handler on the shared task and convert its outcome into exactly one
`JobResult`, turning an error into a failure result carrying the error's
display string. -/
def runJob (job : TaskJob) : JobResult :=
  match job.handler job.task with
  | .ok _ =>
    { task_id := job.id, success := true, error_message := none }
  | .error e =>
    { task_id := job.id, success := false,
      error_message := some e.toDisplayString }

/-- The worker thread loop in `Worker::new`, over the sequence of messages
the worker dequeues: one `JobResult` per job, stopping at `Terminate`. -/
def workerLoop : List Message → List JobResult
  | [] => []
  | .NewTask job :: rest => runJob job :: workerLoop rest
  | .Terminate :: _ => []

/-! ### Synchronous executor, from `task_executor.rs` -/

/-- `TaskExecutor` state: the running-task index (task id to start instant)
and the configured timeout, in seconds. -/
structure TaskExecutor where
  running_tasks : List (Nat × Nat)
  timeout : Nat

/-- `TaskExecutor::check_timeouts`: collect every running entry whose elapsed
time strictly exceeds the timeout, then remove each collected id from the
index; returns the collected ids and the updated executor. -/
def TaskExecutor.check_timeouts (ex : TaskExecutor) (now : Nat) :
    List Nat × TaskExecutor :=
  let timed_out :=
    (ex.running_tasks.filter (fun p => decide (now - p.2 > ex.timeout))).map
      Prod.fst
  (timed_out,
    { ex with running_tasks := timed_out.foldl removeKeyBy ex.running_tasks })

/-- `TaskExecutor::is_task_running`: membership in the running index. -/
def TaskExecutor.is_task_running (ex : TaskExecutor) (task_id : Nat) : Bool :=
  ex.running_tasks.any (fun p => p.1 == task_id)

/-- `TaskExecutor::cancel_task`: remove the entry, or fail when absent. -/
def TaskExecutor.cancel_task (ex : TaskExecutor) (task_id : Nat) :
    Except TaskMasterError Unit × TaskExecutor :=
  if ex.running_tasks.any (fun p => p.1 == task_id) then
    (.ok (), { ex with running_tasks := removeKeyBy ex.running_tasks task_id })
  else
    (.error (.TaskNotFound task_id), ex)

/-! ### Asynchronous executor, from `async_executor.rs` -/

/-- `TaskEvent`, the lifecycle event fan-out type. -/
inductive TaskEvent where
  | Started (task_id : Nat)
  | Completed (task_id : Nat)
  | Failed (task_id : Nat) (error_message : String)
  | Timeout (task_id : Nat)
  | Terminated (task_id : Nat)
deriving DecidableEq, Repr

/-- `AsyncTaskExecutor` state: running-task index and timeout. -/
structure AsyncTaskExecutor where
  running_tasks : List (Nat × Nat)
  timeout : Nat

/-- `AsyncTaskExecutor::execute_task`: record the start instant in the
running index first, then attempt to send `Started` on the event channel;
when the channel is closed the call returns a `ChannelError` without undoing
the insertion and without spawning the task body.  Returns the call result,
the post-call executor, the events actually sent, and whether a body was
spawned. -/
def AsyncTaskExecutor.execute_task (ex : AsyncTaskExecutor) (task : Task)
    (now : Nat) (channelOpen : Bool) :
    Except TaskMasterError Unit × AsyncTaskExecutor × List TaskEvent × Bool :=
  let ex' :=
    { ex with running_tasks := insertKeyBy ex.running_tasks task.id now }
  if channelOpen then
    (.ok (), ex', [TaskEvent.Started task.id], true)
  else
    (.error (.ChannelError "Failed to send task started event"), ex', [], false)

/-- `AsyncTaskExecutor::is_task_running`: membership in the running index. -/
def AsyncTaskExecutor.is_task_running (ex : AsyncTaskExecutor)
    (task_id : Nat) : Bool :=
  ex.running_tasks.any (fun p => p.1 == task_id)

/-! ### Recurrence engine, from `periodic_tasks.rs` -/

/-- `RecurrencePattern`, with `Custom` carrying a duration in seconds. -/
inductive RecurrencePattern where
  | Daily
  | Weekly
  | Monthly
  | Custom (duration : Nat)
deriving DecidableEq, Repr

/-- `RecurrencePattern::get_next_occurrence`: the current time plus the
pattern's fixed duration. -/
def RecurrencePattern.get_next_occurrence :
    RecurrencePattern → Nat → Nat
  | .Daily, current => current + 24 * 60 * 60
  | .Weekly, current => current + 7 * 24 * 60 * 60
  | .Monthly, current => current + 30 * 24 * 60 * 60
  | .Custom d, current => current + d

/-- `PeriodicTask` record. -/
structure PeriodicTask where
  id : Nat
  template : Task
  pattern : RecurrencePattern
  created_at : Nat
  last_run : Option Nat
  next_run : Nat
  occurrences : Nat
deriving DecidableEq, Repr

/-- `PeriodicTask::new`, with the ambient `SystemTime::now()` passed in. -/
def PeriodicTask.new (id : Nat) (template : Task)
    (pattern : RecurrencePattern) (now : Nat) : PeriodicTask :=
  { id := id, template := template, pattern := pattern, created_at := now,
    last_run := none, next_run := pattern.get_next_occurrence now,
    occurrences := 0 }

/-- `PeriodicTask::is_due`: current time has reached `next_run`. -/
def PeriodicTask.is_due (p : PeriodicTask) (now : Nat) : Bool :=
  decide (now ≥ p.next_run)

/-- `PeriodicTask::generate_task`: advance `last_run`, `next_run` and the
`u32` occurrence counter, then build the derived task whose `u32` id is
`template.id * 1000 + occurrences` and whose title embeds the occurrence
number and the local generation date (passed in as a string).  Returns the
updated periodic task together with the generated task. -/
def PeriodicTask.generate_task (p : PeriodicTask) (now : Nat)
    (dateStr : String) : PeriodicTask × Task :=
  let occurrences' := (p.occurrences + 1) % 2 ^ 32
  let p' :=
    { p with
        last_run := some now,
        next_run := p.pattern.get_next_occurrence now,
        occurrences := occurrences' }
  let occurrence_id := (p.template.id * 1000 + occurrences') % 2 ^ 32
  let title := p.template.title ++ " (#" ++ toString occurrences' ++ " on " ++
    dateStr ++ ")"
  (p', Task.new occurrence_id title p.template.status p.template.priority)

/-! ### TTL cache, from `optimizations.rs` -/

/-- `Project` record, from `project.rs`. -/
structure Project where
  id : Nat
  name : String
  tasks : List Task
deriving DecidableEq, Repr

/-- `TaskCache`: project entries keyed by project id, task entries keyed by
(project id, task id); each entry carries its insertion instant. -/
structure TaskCache where
  projects : List (Nat × Project × Nat)
  tasks : List ((Nat × Nat) × Task × Nat)
  ttl : Nat

/-- `TaskCache::new`. -/
def TaskCache.new (ttl_seconds : Nat) : TaskCache := ⟨[], [], ttl_seconds⟩

/-- `TaskCache::add_project`: insert the project with the current instant. -/
def TaskCache.add_project (c : TaskCache) (project : Project) (now : Nat) :
    TaskCache :=
  { c with projects := insertKeyBy c.projects project.id (project, now) }

/-- `TaskCache::get_project`: return a fresh entry; evict and return `none`
when the entry's age has reached the time-to-live. -/
def TaskCache.get_project (c : TaskCache) (id : Nat) (now : Nat) :
    Option Project × TaskCache :=
  match lookupBy c.projects id with
  | some (project, timestamp) =>
    if now - timestamp < c.ttl then (some project, c)
    else (none, { c with projects := removeKeyBy c.projects id })
  | none => (none, c)

/-- `TaskCache::add_task`. -/
def TaskCache.add_task (c : TaskCache) (project_id : Nat) (task : Task)
    (now : Nat) : TaskCache :=
  { c with tasks := insertKeyBy c.tasks (project_id, task.id) (task, now) }

/-- `TaskCache::get_task`: as `get_project`, on the task map. -/
def TaskCache.get_task (c : TaskCache) (project_id task_id : Nat)
    (now : Nat) : Option Task × TaskCache :=
  match lookupBy c.tasks (project_id, task_id) with
  | some (task, timestamp) =>
    if now - timestamp < c.ttl then (some task, c)
    else (none, { c with tasks := removeKeyBy c.tasks (project_id, task_id) })
  | none => (none, c)

/-- `TaskCache::cleanup_expired`: collect the keys of all entries whose age
has reached the time-to-live, then remove each collected key, on both
maps. -/
def TaskCache.cleanup_expired (c : TaskCache) (now : Nat) : TaskCache :=
  let expired_projects :=
    (c.projects.filter (fun p => decide (now - p.2.2 ≥ c.ttl))).map Prod.fst
  let projects' := expired_projects.foldl removeKeyBy c.projects
  let expired_tasks :=
    (c.tasks.filter (fun p => decide (now - p.2.2 ≥ c.ttl))).map Prod.fst
  let tasks' := expired_tasks.foldl removeKeyBy c.tasks
  { c with projects := projects', tasks := tasks' }

/-! ### Notification hub, from `notification.rs`

Callbacks are dynamically typed closures in the source; here each callback is
identified by an opaque handle, and dispatching an event records the sequence
of (handle, event) invocations.  The callback map is a `HashMap` keyed by
observer name, so the loop in `start` walks it in an unspecified iteration
order: the dispatch below therefore takes the iteration order as an explicit
list that must be a permutation of the map's entries. -/

/-- `NotificationSystem` state: the observer-name-keyed callback map. -/
structure NotificationSystem where
  callbacks : List (String × Nat)

/-- `NotificationSystem::new`. -/
def NotificationSystem.new : NotificationSystem := ⟨[]⟩

/-- `NotificationSystem::register_callback`: `HashMap::insert`, so the last
registration under a given name wins. -/
def NotificationSystem.register_callback (ns : NotificationSystem)
    (name : String) (cb : Nat) : NotificationSystem :=
  ⟨insertKeyBy ns.callbacks name cb⟩

/-- `NotificationSystem::unregister_callback`: `HashMap::remove`, reporting
whether the name was present. -/
def NotificationSystem.unregister_callback (ns : NotificationSystem)
    (name : String) : Bool × NotificationSystem :=
  ((lookupBy ns.callbacks name).isSome, ⟨removeKeyBy ns.callbacks name⟩)

/-- The per-event body of the loop in `NotificationSystem::start`: invoke
every callback of the map once, in the map's iteration order `iter`,
passing the event to each. -/
def dispatchEvent (iter : List (String × Nat)) (event : TaskEvent) :
    List (Nat × TaskEvent) :=
  iter.map (fun p => (p.2, event))

/-! ### Concrete fixtures used by the witnesses -/

/-- A job whose handler succeeds. -/
def workerJobOk : TaskJob :=
  ⟨5, Task.new 5 "job five" .ToDo .Medium, fun _ => .ok ()⟩

/-- A job whose handler fails with an invalid-operation error. -/
def workerJobFail : TaskJob :=
  ⟨9, Task.new 9 "job nine" .ToDo .Medium,
    fun _ => .error (.InvalidOperation "handler failed")⟩

/-- A running index with one long-running and one fresh task, timeout 30. -/
def exExecutor : TaskExecutor := ⟨[(1, 0), (2, 95)], 30⟩

/-- A daily periodic task created at time 0 from template task 7. -/
def examplePeriodic : PeriodicTask :=
  PeriodicTask.new 3 (Task.new 7 "Weekly report" .ToDo .High) .Daily 0

/-- Hub with callback 1 registered under "a" and then 2 under "b". -/
def regNS : NotificationSystem :=
  (NotificationSystem.new.register_callback "a" 1).register_callback "b" 2

/-- An idle asynchronous executor with timeout 30. -/
def exAsync : AsyncTaskExecutor := ⟨[], 30⟩

/-- A concrete task for the asynchronous-executor witness. -/
def exTask7 : Task := Task.new 7 "Async task" .ToDo .Medium

/-- A cache holding one stale project entry and one stale task entry, with
time-to-live 10. -/
def exCache : TaskCache :=
  ⟨[(4, ⟨4, "proj", []⟩, 0)], [((4, 6), Task.new 6 "cached" .ToDo .Low, 0)], 10⟩

/-! ### Supporting lemmas for the component models -/

lemma runJob_task_id (job : TaskJob) : (runJob job).task_id = job.id := by
  unfold runJob
  cases job.handler job.task <;> rfl

lemma workerLoop_jobs (jobs : List TaskJob) :
    workerLoop (jobs.map Message.NewTask ++ [Message.Terminate]) =
      jobs.map runJob := by
  induction jobs with
  | nil => rfl
  | cons j rest ih => simp [workerLoop, ih]

lemma foldl_removeKeyBy_eq_filter {κ ν : Type} [DecidableEq κ]
    (ids : List κ) (m : List (κ × ν)) :
    ids.foldl removeKeyBy m = m.filter (fun p => decide (p.1 ∉ ids)) := by
  induction ids generalizing m with
  | nil => simp
  | cons i is ih =>
    show is.foldl removeKeyBy (removeKeyBy m i) = _
    rw [ih]
    unfold removeKeyBy
    rw [List.filter_filter]
    apply List.filter_congr
    intro p _
    by_cases h1 : p.1 = i <;> by_cases h2 : p.1 ∈ is <;> simp [h1, h2]

lemma mem_foldl_removeKeyBy {κ ν : Type} [DecidableEq κ]
    (ids : List κ) (m : List (κ × ν)) (p : κ × ν) :
    p ∈ ids.foldl removeKeyBy m ↔ p ∈ m ∧ p.1 ∉ ids := by
  rw [foldl_removeKeyBy_eq_filter]
  simp [List.mem_filter]

lemma nodup_keys_eq {κ ν : Type} [DecidableEq κ] {l : List (κ × ν)}
    (h : (l.map Prod.fst).Nodup) {k : κ} {v1 v2 : ν}
    (h1 : (k, v1) ∈ l) (h2 : (k, v2) ∈ l) : v1 = v2 := by
  induction l with
  | nil => cases h1
  | cons p rest ih =>
    simp only [List.map_cons, List.nodup_cons] at h
    rcases List.mem_cons.1 h1 with rfl | h1'
    · rcases List.mem_cons.1 h2 with h2h | h2'
      · exact (congrArg Prod.snd h2h.symm : _)
      · exact absurd (List.mem_map_of_mem Prod.fst h2') (by simpa using h.1)
    · rcases List.mem_cons.1 h2 with rfl | h2'
      · exact absurd (List.mem_map_of_mem Prod.fst h1') (by simpa using h.1)
      · exact ih h.2 h1' h2'

lemma lookupBy_insertKeyBy_self {κ ν : Type} [DecidableEq κ]
    (m : List (κ × ν)) (k : κ) (v : ν) :
    lookupBy (insertKeyBy m k v) k = some v := by
  induction m with
  | nil => simp [insertKeyBy, lookupBy]
  | cons p rest ih =>
    obtain ⟨k', v'⟩ := p
    by_cases h : k' = k
    · simp [insertKeyBy, lookupBy, h]
    · simp [insertKeyBy, lookupBy, h, ih]

lemma lookupBy_removeKeyBy_self {κ ν : Type} [DecidableEq κ]
    (m : List (κ × ν)) (k : κ) :
    lookupBy (removeKeyBy m k) k = none := by
  induction m with
  | nil => rfl
  | cons p rest ih =>
    obtain ⟨k', v'⟩ := p
    by_cases h : k' = k
    · simpa [removeKeyBy, h] using ih
    · simpa [removeKeyBy, lookupBy, h] using ih

lemma any_insertKeyBy (m : List (Nat × Nat)) (k v : Nat) :
    (insertKeyBy m k v).any (fun p => p.1 == k) = true := by
  induction m with
  | nil => simp [insertKeyBy]
  | cons p rest ih =>
    obtain ⟨k', v'⟩ := p
    by_cases h : k' = k
    · simp [insertKeyBy, h]
    · simp [insertKeyBy, h, ih]

lemma acyclic_exampleGraph : Acyclic exampleGraph := by
  apply acyclic_of_decreasing
  intro a b h
  simp only [DepRel, DependencyGraph.get_dependencies, exampleGraph,
    lookupSet] at h
  split at h
  · rename_i ha
    simp only [Option.getD_some, List.mem_singleton] at h
    omega
  · split at h
    · rename_i ha
      simp only [Option.getD_some, List.mem_singleton] at h
      omega
    · split at h
      · rename_i ha
        simp only [Option.getD_some, List.mem_singleton] at h
        omega
      · simp at h

lemma acyclic_hashOrderGraphA : Acyclic hashOrderGraphA := by
  apply acyclic_of_decreasing
  intro a b h
  simp only [DepRel, DependencyGraph.get_dependencies, hashOrderGraphA,
    lookupSet] at h
  split at h
  · rename_i ha
    simp only [Option.getD_some, List.mem_cons, List.mem_singleton,
      List.not_mem_nil, or_false] at h
    omega
  · simp at h

lemma same_edges_hashOrderGraphs :
    ∀ n, (hashOrderGraphA.get_dependencies n).toFinset =
      (hashOrderGraphB.get_dependencies n).toFinset := by
  intro n
  by_cases h : (3 : Nat) = n
  · simp only [DependencyGraph.get_dependencies, hashOrderGraphA,
      hashOrderGraphB, lookupSet, if_pos h, Option.getD_some]
    decide
  · simp [DependencyGraph.get_dependencies, hashOrderGraphA,
      hashOrderGraphB, lookupSet, h]

/-! ### Claim theorems -/

/-- Claim C1 (code bug evidence): from a fresh graph, `add_dependency 2 1`
succeeds, and the subsequent `add_dependency 1 2` — which closes the cycle
1 depends-on 2 depends-on 1 — also succeeds: the cycle check walks the
dependents relation from the new dependency, which detects `task` reaching
`dep`, not `dep` reaching `task`, so the resulting graph holds both edges and
is cyclic, contradicting the claim that every incrementally built graph stays
acyclic. -/
theorem C1_add_dependency_accepts_cycle :
    (DependencyGraph.new.add_dependency 2 1).1 = .ok () ∧
    ((DependencyGraph.new.add_dependency 2 1).2.add_dependency 1 2).1 =
      .ok () ∧
    ((DependencyGraph.new.add_dependency 2 1).2.would_create_cycle 1 2)
      = false ∧
    1 ∈ ((DependencyGraph.new.add_dependency 2 1).2.add_dependency
      1 2).2.get_dependencies 2 ∧
    2 ∈ ((DependencyGraph.new.add_dependency 2 1).2.add_dependency
      1 2).2.get_dependencies 1 ∧
    ¬ Acyclic ((DependencyGraph.new.add_dependency 2 1).2.add_dependency
      1 2).2 := by
  obtain ⟨h1, h2⟩ := graph_after_two_adds
  have hg1 : (DependencyGraph.new.add_dependency 2 1).2 =
      DependencyGraph.mk [(1, [2])] [(2, [1])] := by rw [h1]
  have hg2 : ((DependencyGraph.new.add_dependency 2 1).2.add_dependency 1 2).2
      = DependencyGraph.mk [(1, [2]), (2, [1])] [(2, [1]), (1, [2])] := by
    rw [hg1, h2]
  have hcyc : ¬ (DependencyGraph.mk [(1, [2])] [(2, [1])]).would_create_cycle
      1 2 = true := by
    intro hcon
    have : ((DependencyGraph.mk [(1, [2])] [(2, [1])]).add_dependency 1 2).1 =
        .error (.InvalidOperation "Adding this dependency would create a cycle")
      := by
      simp [DependencyGraph.add_dependency, hcon]
    rw [h2] at this
    cases this
  have hd21 : (1 : Nat) ∈ (DependencyGraph.mk [(1, [2]), (2, [1])]
      [(2, [1]), (1, [2])]).get_dependencies 2 := by
    simp [DependencyGraph.get_dependencies, lookupSet]
  have hd12 : (2 : Nat) ∈ (DependencyGraph.mk [(1, [2]), (2, [1])]
      [(2, [1]), (1, [2])]).get_dependencies 1 := by
    simp [DependencyGraph.get_dependencies, lookupSet]
  refine ⟨by rw [h1], by rw [hg1, h2], by rw [hg1]; simpa using hcyc,
    by rw [hg2]; exact hd21, by rw [hg2]; exact hd12, ?_⟩
  rw [hg2]
  intro hacyc
  exact hacyc 1 (Relation.TransGen.head (show DepRel _ 1 2 from hd12)
    (Relation.TransGen.single (show DepRel _ 2 1 from hd21)))

/-- Claim C2: on every acyclic graph, `get_execution_order` succeeds and
returns every input task id exactly once and nothing else, with every
in-input direct dependency strictly before the task declaring it; and on the
graph built by the calls (2 on 1), (3 on 2), (4 on 3), the input tasks
1, 2, 3, 4 yield exactly the order `[1, 2, 3, 4]`. -/
theorem C2_execution_order :
    (∀ (g : DependencyGraph) (tasks : List Task), Acyclic g →
      ∃ l, g.get_execution_order tasks = .ok l ∧ l.Nodup ∧
        (∀ x, x ∈ l ↔ x ∈ tasks.map Task.id) ∧
        (∀ t d, t ∈ tasks.map Task.id → d ∈ tasks.map Task.id →
          d ∈ g.get_dependencies t → l.indexOf d < l.indexOf t)) ∧
    buildGraph [.add 2 1, .add 3 2, .add 4 3] = exampleGraph ∧
    exampleGraph.get_execution_order exampleTasks = .ok [1, 2, 3, 4] := by
  refine ⟨get_execution_order_spec, ?_, ?_⟩
  · simp [buildGraph, applyOp, DependencyGraph.add_dependency,
      DependencyGraph.would_create_cycle, DependencyGraph.bfsDependents,
      DependencyGraph.get_dependents, DependencyGraph.new, lookupSet,
      mapInsert, setInsert, exampleGraph]
  · simp [DependencyGraph.get_execution_order, orderLoop, visit, visitList,
      DependencyGraph.get_dependencies, lookupSet, exampleGraph,
      exampleTasks, Task.new]

/-- Witness for C2 at the concrete example: the example graph is acyclic and
the specification instance holds for it. -/
theorem C2_execution_order_witness :
    Acyclic exampleGraph ∧
    (∃ l, exampleGraph.get_execution_order exampleTasks = .ok l ∧ l.Nodup ∧
      (∀ x, x ∈ l ↔ x ∈ exampleTasks.map Task.id) ∧
      (∀ t d, t ∈ exampleTasks.map Task.id → d ∈ exampleTasks.map Task.id →
        d ∈ exampleGraph.get_dependencies t → l.indexOf d < l.indexOf t)) :=
  ⟨acyclic_exampleGraph,
    C2_execution_order.1 exampleGraph exampleTasks acyclic_exampleGraph⟩

/-- Claim C3 counterexample: two graphs recording the same edge set, whose
only dependency set is iterated in the two different orders a `HashSet`
rehash may produce, give different outputs on the same input list — so
results are not reproducible across runs for the same logical input. -/
theorem C3_hash_order_counterexample :
    edgePairs hashOrderGraphA = edgePairs hashOrderGraphB ∧
    hashOrderGraphA.get_execution_order hashOrderTasks = .ok [1, 2, 3] ∧
    hashOrderGraphB.get_execution_order hashOrderTasks = .ok [2, 1, 3] ∧
    hashOrderGraphA.get_execution_order hashOrderTasks ≠
      hashOrderGraphB.get_execution_order hashOrderTasks := by
  have hA : hashOrderGraphA.get_execution_order hashOrderTasks =
      .ok [1, 2, 3] := by
    simp [DependencyGraph.get_execution_order, orderLoop, visit, visitList,
      DependencyGraph.get_dependencies, lookupSet, hashOrderGraphA,
      hashOrderTasks, Task.new]
  have hB : hashOrderGraphB.get_execution_order hashOrderTasks =
      .ok [2, 1, 3] := by
    simp [DependencyGraph.get_execution_order, orderLoop, visit, visitList,
      DependencyGraph.get_dependencies, lookupSet, hashOrderGraphB,
      hashOrderTasks, Task.new]
  refine ⟨by decide, hA, hB, ?_⟩
  rw [hA, hB]
  intro hcon
  cases hcon

/-- Claim C3 as amended: the function is pure, so two calls on the same
in-memory graph agree; across representations, two graphs carrying the same
edge set both succeed on an acyclic input and return lists with exactly the
same members (both valid orders), though not necessarily in the same
sequence. -/
theorem C3_execution_order_determinism (g₁ g₂ : DependencyGraph)
    (tasks : List Task) (hacyc : Acyclic g₁)
    (hsame : ∀ n, (g₁.get_dependencies n).toFinset =
      (g₂.get_dependencies n).toFinset) :
    ∃ l₁ l₂, g₁.get_execution_order tasks = .ok l₁ ∧
      g₂.get_execution_order tasks = .ok l₂ ∧
      l₁.Nodup ∧ l₂.Nodup ∧ (∀ x, x ∈ l₁ ↔ x ∈ l₂) := by
  have hrel : ∀ a b, DepRel g₂ a b → DepRel g₁ a b := by
    intro a b h
    unfold DepRel at h ⊢
    have h' : b ∈ (g₂.get_dependencies a).toFinset := List.mem_toFinset.2 h
    rw [← hsame a] at h'
    exact List.mem_toFinset.1 h'
  have hacyc₂ : Acyclic g₂ := by
    intro n hn
    exact hacyc n (Relation.TransGen.mono hrel hn)
  obtain ⟨l₁, hok₁, hnd₁, hmem₁, _⟩ := get_execution_order_spec g₁ tasks hacyc
  obtain ⟨l₂, hok₂, hnd₂, hmem₂, _⟩ := get_execution_order_spec g₂ tasks hacyc₂
  exact ⟨l₁, l₂, hok₁, hok₂, hnd₁, hnd₂,
    fun x => (hmem₁ x).trans (hmem₂ x).symm⟩

/-- Witness for the amended C3 at the two concrete hash orders. -/
theorem C3_execution_order_determinism_witness :
    Acyclic hashOrderGraphA ∧
    (∀ n, (hashOrderGraphA.get_dependencies n).toFinset =
      (hashOrderGraphB.get_dependencies n).toFinset) ∧
    (∃ l₁ l₂, hashOrderGraphA.get_execution_order hashOrderTasks = .ok l₁ ∧
      hashOrderGraphB.get_execution_order hashOrderTasks = .ok l₂ ∧
      l₁.Nodup ∧ l₂.Nodup ∧ (∀ x, x ∈ l₁ ↔ x ∈ l₂)) :=
  ⟨acyclic_hashOrderGraphA, same_edges_hashOrderGraphs,
    C3_execution_order_determinism hashOrderGraphA hashOrderGraphB
      hashOrderTasks acyclic_hashOrderGraphA same_edges_hashOrderGraphs⟩

/-- Claim C9: after every sequence of `add_dependency` and
`remove_dependency` calls starting from a fresh graph, the forward and
reverse indices are mirror images of one and the same edge set. -/
theorem C9_indices_mirror (ops : List GraphOp) :
    ∀ t d, d ∈ (buildGraph ops).get_dependencies t ↔
      t ∈ (buildGraph ops).get_dependents d :=
  mirror_buildGraph ops

/-- Claim C4: a worker converts each dequeued job into exactly one
`JobResult` carrying the job's task id, turning a handler error into a
failure result with the error's message; K submitted jobs give exactly K
results, and reordering the jobs permutes the results accordingly, so the
multiset of results does not depend on processing order. -/
theorem C4_worker_results (jobs jobs' : List TaskJob)
    (hperm : jobs.Perm jobs') :
    (workerLoop (jobs.map Message.NewTask ++ [Message.Terminate])).length =
      jobs.length ∧
    (workerLoop (jobs.map Message.NewTask ++ [Message.Terminate])).map
      JobResult.task_id = jobs.map TaskJob.id ∧
    (workerLoop (jobs.map Message.NewTask ++ [Message.Terminate])).Perm
      (workerLoop (jobs'.map Message.NewTask ++ [Message.Terminate])) ∧
    (∀ job ∈ jobs, (runJob job).task_id = job.id ∧
      (∀ e, job.handler job.task = .error e →
        (runJob job).success = false ∧
        (runJob job).error_message = some e.toDisplayString) ∧
      (job.handler job.task = .ok () →
        (runJob job).success = true ∧ (runJob job).error_message = none)) := by
  rw [workerLoop_jobs, workerLoop_jobs]
  refine ⟨by simp, ?_, hperm.map runJob, ?_⟩
  · rw [List.map_map]
    exact List.map_congr_left (fun j _ => runJob_task_id j)
  · intro job _
    refine ⟨runJob_task_id job, ?_, ?_⟩
    · intro e he
      simp [runJob, he]
    · intro he
      simp [runJob, he]

/-- Witness for C4 at two concrete jobs, one succeeding and one failing. -/
theorem C4_worker_results_witness :
    ([workerJobOk, workerJobFail].Perm [workerJobFail, workerJobOk]) ∧
    ((workerLoop ([workerJobOk, workerJobFail].map Message.NewTask ++
        [Message.Terminate])).length = [workerJobOk, workerJobFail].length ∧
      (workerLoop ([workerJobOk, workerJobFail].map Message.NewTask ++
        [Message.Terminate])).map JobResult.task_id =
        [workerJobOk, workerJobFail].map TaskJob.id ∧
      (workerLoop ([workerJobOk, workerJobFail].map Message.NewTask ++
        [Message.Terminate])).Perm
        (workerLoop ([workerJobFail, workerJobOk].map Message.NewTask ++
          [Message.Terminate])) ∧
      (∀ job ∈ [workerJobOk, workerJobFail], (runJob job).task_id = job.id ∧
        (∀ e, job.handler job.task = .error e →
          (runJob job).success = false ∧
          (runJob job).error_message = some e.toDisplayString) ∧
        (job.handler job.task = .ok () →
          (runJob job).success = true ∧
          (runJob job).error_message = none))) :=
  ⟨List.Perm.swap _ _ _,
    C4_worker_results [workerJobOk, workerJobFail]
      [workerJobFail, workerJobOk] (List.Perm.swap _ _ _)⟩

/-- Claim C5: `check_timeouts` returns exactly the ids whose elapsed running
time strictly exceeds the timeout, each exactly once, evicts every such
entry in the same call, keeps the rest, and `is_task_running` is false on
every returned id immediately afterwards. -/
theorem C5_check_timeouts (ex : TaskExecutor) (now : Nat)
    (hkeys : (ex.running_tasks.map Prod.fst).Nodup) :
    (∀ id, id ∈ (ex.check_timeouts now).1 ↔
      ∃ s, (id, s) ∈ ex.running_tasks ∧ now - s > ex.timeout) ∧
    (ex.check_timeouts now).1.Nodup ∧
    (∀ id ∈ (ex.check_timeouts now).1,
      (ex.check_timeouts now).2.is_task_running id = false) ∧
    (∀ id s, (id, s) ∈ ex.running_tasks → ¬ now - s > ex.timeout →
      (id, s) ∈ (ex.check_timeouts now).2.running_tasks) := by
  have hfst : (ex.check_timeouts now).1 =
      (ex.running_tasks.filter
        (fun p => decide (now - p.2 > ex.timeout))).map Prod.fst := rfl
  have hsnd : (ex.check_timeouts now).2.running_tasks =
      ex.running_tasks.filter
        (fun p => decide (p.1 ∉ (ex.check_timeouts now).1)) := by
    rw [show (ex.check_timeouts now).2.running_tasks =
      ((ex.check_timeouts now).1).foldl removeKeyBy ex.running_tasks from rfl]
    exact foldl_removeKeyBy_eq_filter _ _
  have hmem : ∀ id, id ∈ (ex.check_timeouts now).1 ↔
      ∃ s, (id, s) ∈ ex.running_tasks ∧ now - s > ex.timeout := by
    intro id
    rw [hfst]
    constructor
    · intro h
      rcases List.mem_map.1 h with ⟨p, hp, rfl⟩
      rcases List.mem_filter.1 hp with ⟨hm, hc⟩
      exact ⟨p.2, by simpa using hm, by simpa using hc⟩
    · rintro ⟨s, hm, hc⟩
      exact List.mem_map.2
        ⟨(id, s), List.mem_filter.2 ⟨hm, by simpa using hc⟩, rfl⟩
  refine ⟨hmem, ?_, ?_, ?_⟩
  · rw [hfst]
    exact List.Nodup.sublist ((List.filter_sublist _).map Prod.fst) hkeys
  · intro id hid
    have hall : ∀ p ∈ (ex.check_timeouts now).2.running_tasks,
        (p.1 == id) = false := by
      intro p hp
      rw [hsnd] at hp
      rcases List.mem_filter.1 hp with ⟨_, hc⟩
      simp only [decide_eq_true_eq] at hc
      simp only [beq_eq_false_iff_ne, ne_eq]
      intro hcon
      exact hc (hcon ▸ hid)
    show (ex.check_timeouts now).2.running_tasks.any
      (fun p => p.1 == id) = false
    rw [List.any_eq_false]
    intro p hp
    simp [hall p hp]
  · intro id s hm hc
    rw [hsnd]
    refine List.mem_filter.2 ⟨hm, ?_⟩
    simp only [decide_eq_true_eq]
    intro hid
    rcases (hmem id).1 hid with ⟨s', hm', hc'⟩
    have hss : s = s' := nodup_keys_eq hkeys hm hm'
    exact hc (hss ▸ hc')

/-- Witness for C5 at a concrete index with one timed-out entry. -/
theorem C5_check_timeouts_witness :
    ((exExecutor.running_tasks.map Prod.fst).Nodup) ∧
    ((∀ id, id ∈ (exExecutor.check_timeouts 100).1 ↔
      ∃ s, (id, s) ∈ exExecutor.running_tasks ∧
        100 - s > exExecutor.timeout) ∧
    (exExecutor.check_timeouts 100).1.Nodup ∧
    (∀ id ∈ (exExecutor.check_timeouts 100).1,
      (exExecutor.check_timeouts 100).2.is_task_running id = false) ∧
    (∀ id s, (id, s) ∈ exExecutor.running_tasks →
      ¬ 100 - s > exExecutor.timeout →
      (id, s) ∈ (exExecutor.check_timeouts 100).2.running_tasks)) :=
  ⟨by decide, C5_check_timeouts exExecutor 100 (by decide)⟩

/-- Claim C6: for a due periodic task, `generate_task` sets `last_run` to
the current time, sets `next_run` to now plus the pattern duration
(daily 24h, weekly 7×24h, monthly 30×24h, custom as given), increments the
occurrence counter, and returns a task with id `template.id × 1000 +
occurrence` and status/priority copied from the template (all under `u32`
arithmetic: the id formula holds whenever it does not overflow).  A fresh
daily task's first generation yields occurrence 1 and `next_run` 24h after
the generation time, and a second generation yields occurrence 2 and a
distinct derived id. -/
theorem C6_generate_task :
    (∀ (p : PeriodicTask) (now : Nat) (dateStr : String),
      p.is_due now = true →
      p.occurrences + 1 < 2 ^ 32 →
      p.template.id * 1000 + (p.occurrences + 1) < 2 ^ 32 →
      (p.generate_task now dateStr).1.last_run = some now ∧
      (p.generate_task now dateStr).1.next_run =
        p.pattern.get_next_occurrence now ∧
      (p.generate_task now dateStr).1.occurrences = p.occurrences + 1 ∧
      (p.generate_task now dateStr).2.id =
        p.template.id * 1000 + (p.occurrences + 1) ∧
      (p.generate_task now dateStr).2.status = p.template.status ∧
      (p.generate_task now dateStr).2.priority = p.template.priority) ∧
    (∀ now, RecurrencePattern.Daily.get_next_occurrence now =
      now + 24 * 60 * 60) ∧
    (∀ now, RecurrencePattern.Weekly.get_next_occurrence now =
      now + 7 * 24 * 60 * 60) ∧
    (∀ now, RecurrencePattern.Monthly.get_next_occurrence now =
      now + 30 * 24 * 60 * 60) ∧
    (∀ now d, (RecurrencePattern.Custom d).get_next_occurrence now =
      now + d) ∧
    (∀ (id0 : Nat) (tmpl : Task) (t0 t1 t2 : Nat) (d1 d2 : String),
      tmpl.id * 1000 + 2 < 2 ^ 32 →
      ((PeriodicTask.new id0 tmpl .Daily t0).generate_task
        t1 d1).1.occurrences = 1 ∧
      ((PeriodicTask.new id0 tmpl .Daily t0).generate_task t1 d1).1.next_run
        = t1 + 24 * 60 * 60 ∧
      (((PeriodicTask.new id0 tmpl .Daily t0).generate_task
        t1 d1).1.generate_task t2 d2).1.occurrences = 2 ∧
      (((PeriodicTask.new id0 tmpl .Daily t0).generate_task
        t1 d1).1.generate_task t2 d2).2.id ≠
        ((PeriodicTask.new id0 tmpl .Daily t0).generate_task t1 d1).2.id) := by
  have hone : (1 : Nat) % 2 ^ 32 = 1 := Nat.mod_eq_of_lt (by norm_num)
  have htwo : (2 : Nat) % 2 ^ 32 = 2 := Nat.mod_eq_of_lt (by norm_num)
  refine ⟨?_, fun _ => rfl, fun _ => rfl, fun _ => rfl, fun _ _ => rfl, ?_⟩
  · intro p now dateStr _hdue h1 h2
    have hocc : (p.occurrences + 1) % 2 ^ 32 = p.occurrences + 1 :=
      Nat.mod_eq_of_lt h1
    refine ⟨rfl, rfl, hocc, ?_, rfl, rfl⟩
    show (p.template.id * 1000 + (p.occurrences + 1) % 2 ^ 32) % 2 ^ 32 = _
    rw [hocc]
    exact Nat.mod_eq_of_lt h2
  · intro id0 tmpl t0 t1 t2 d1 d2 hbound
    have hfst : ((PeriodicTask.new id0 tmpl .Daily t0).generate_task
        t1 d1).1.occurrences = 1 := by
      show (0 + 1) % 2 ^ 32 = 1
      simp
    refine ⟨hfst, rfl, ?_, ?_⟩
    · show (((PeriodicTask.new id0 tmpl .Daily t0).generate_task
        t1 d1).1.occurrences + 1) % 2 ^ 32 = 2
      rw [hfst]
      exact htwo
    · show (tmpl.id * 1000 + (((PeriodicTask.new id0 tmpl .Daily t0).generate_task
        t1 d1).1.occurrences + 1) % 2 ^ 32) % 2 ^ 32 ≠
        (tmpl.id * 1000 + (0 + 1) % 2 ^ 32) % 2 ^ 32
      rw [hfst]
      rw [htwo, show ((0 : Nat) + 1) % 2 ^ 32 = 1 by simp]
      rw [Nat.mod_eq_of_lt hbound, Nat.mod_eq_of_lt (by omega)]
      omega

/-- Witness for C6 at a concrete daily periodic task generated at its due
time. -/
theorem C6_generate_task_witness :
    (examplePeriodic.is_due 86400 = true ∧
      examplePeriodic.occurrences + 1 < 2 ^ 32 ∧
      examplePeriodic.template.id * 1000 +
        (examplePeriodic.occurrences + 1) < 2 ^ 32) ∧
    ((examplePeriodic.generate_task 86400 "2026-10-12").1.last_run =
        some 86400 ∧
      (examplePeriodic.generate_task 86400 "2026-10-12").1.next_run =
        examplePeriodic.pattern.get_next_occurrence 86400 ∧
      (examplePeriodic.generate_task 86400 "2026-10-12").1.occurrences =
        examplePeriodic.occurrences + 1 ∧
      (examplePeriodic.generate_task 86400 "2026-10-12").2.id =
        examplePeriodic.template.id * 1000 +
          (examplePeriodic.occurrences + 1) ∧
      (examplePeriodic.generate_task 86400 "2026-10-12").2.status =
        examplePeriodic.template.status ∧
      (examplePeriodic.generate_task 86400 "2026-10-12").2.priority =
        examplePeriodic.template.priority) :=
  ⟨⟨by decide, by decide, by decide⟩,
    C6_generate_task.1 examplePeriodic 86400 "2026-10-12"
      (by decide) (by decide) (by decide)⟩

/-- Claim C7 counterexample: with callbacks 1 under "a" and then 2 under
"b" registered, the iteration order `[("b", 2), ("a", 1)]` is a legitimate
iteration of the callback map (a permutation of its entries), yet dispatching
an event in that order invokes the callbacks as `[2, 1]`, not in the
registration order `[1, 2]`. -/
theorem C7_callback_order_counterexample :
    [("b", 2), ("a", 1)].Perm regNS.callbacks ∧
    (dispatchEvent [("b", 2), ("a", 1)] (TaskEvent.Started 7)).map Prod.fst
      = [2, 1] ∧
    regNS.callbacks.map Prod.snd = [1, 2] ∧
    ([2, 1] : List Nat) ≠ [1, 2] := by
  refine ⟨by decide, by decide, by decide, by decide⟩

/-- Claim C7 as amended: for each event, every callback of the current map
is invoked exactly once — the invocation multiset equals the map's callback
multiset — in the map's iteration order, which is some permutation of the
entries but not necessarily registration order; re-registering a name
replaces its callback (last registration wins). -/
theorem C7_callbacks_invoked_once (cbs iter : List (String × Nat))
    (ev : TaskEvent) (hperm : iter.Perm cbs) :
    (dispatchEvent iter ev).length = cbs.length ∧
    (∀ c ∈ cbs, (c.2, ev) ∈ dispatchEvent iter ev) ∧
    ((dispatchEvent iter ev).map Prod.fst).Perm (cbs.map Prod.snd) ∧
    (∀ h : Nat, ((dispatchEvent iter ev).map Prod.fst).count h =
      (cbs.map Prod.snd).count h) ∧
    (∀ name cb, lookupBy (insertKeyBy cbs name cb) name = some cb) := by
  have hmapfst : (dispatchEvent iter ev).map Prod.fst = iter.map Prod.snd := by
    simp [dispatchEvent]
  have hpermmap : (iter.map Prod.snd).Perm (cbs.map Prod.snd) :=
    hperm.map Prod.snd
  refine ⟨by simp [dispatchEvent, hperm.length_eq], ?_,
    by rw [hmapfst]; exact hpermmap, ?_, ?_⟩
  · intro c hc
    exact List.mem_map.2 ⟨c, hperm.mem_iff.2 hc, rfl⟩
  · intro h
    rw [hmapfst]
    exact hpermmap.count_eq h
  · intro name cb
    exact lookupBy_insertKeyBy_self _ _ _

/-- Witness for the amended C7 at the concrete two-callback hub. -/
theorem C7_callbacks_invoked_once_witness :
    ([("b", 2), ("a", 1)].Perm regNS.callbacks) ∧
    ((dispatchEvent [("b", 2), ("a", 1)] (TaskEvent.Started 7)).length =
        regNS.callbacks.length ∧
      (∀ c ∈ regNS.callbacks,
        (c.2, TaskEvent.Started 7) ∈
          dispatchEvent [("b", 2), ("a", 1)] (TaskEvent.Started 7)) ∧
      ((dispatchEvent [("b", 2), ("a", 1)] (TaskEvent.Started 7)).map
        Prod.fst).Perm (regNS.callbacks.map Prod.snd) ∧
      (∀ h : Nat, ((dispatchEvent [("b", 2), ("a", 1)]
        (TaskEvent.Started 7)).map Prod.fst).count h =
        (regNS.callbacks.map Prod.snd).count h) ∧
      (∀ name cb, lookupBy (insertKeyBy regNS.callbacks name cb) name =
        some cb)) :=
  ⟨by decide, C7_callbacks_invoked_once regNS.callbacks
    [("b", 2), ("a", 1)] (TaskEvent.Started 7) (by decide)⟩

/-- Claim C8: a `get` on an entry whose age has reached the time-to-live
returns absence and evicts the entry in place, and `cleanup_expired` removes
exactly the entries whose age has reached the time-to-live, keeping every
fresher entry, on both maps. -/
theorem C8_cache_expiry (c : TaskCache) (now : Nat)
    (hpk : (c.projects.map Prod.fst).Nodup)
    (htk : (c.tasks.map Prod.fst).Nodup) :
    (∀ id proj ts, lookupBy c.projects id = some (proj, ts) →
      now - ts ≥ c.ttl →
      (c.get_project id now).1 = none ∧
      lookupBy (c.get_project id now).2.projects id = none) ∧
    (∀ pid tid task ts, lookupBy c.tasks (pid, tid) = some (task, ts) →
      now - ts ≥ c.ttl →
      (c.get_task pid tid now).1 = none ∧
      lookupBy (c.get_task pid tid now).2.tasks (pid, tid) = none) ∧
    (∀ id proj ts, (id, proj, ts) ∈ (c.cleanup_expired now).projects ↔
      ((id, proj, ts) ∈ c.projects ∧ now - ts < c.ttl)) ∧
    (∀ key task ts, (key, task, ts) ∈ (c.cleanup_expired now).tasks ↔
      ((key, task, ts) ∈ c.tasks ∧ now - ts < c.ttl)) := by
  refine ⟨?_, ?_, ?_, ?_⟩
  · intro id proj ts hl hage
    have hnl : ¬ now - ts < c.ttl := by omega
    constructor
    · simp [TaskCache.get_project, hl, hnl]
    · have hpost : (c.get_project id now).2.projects =
          removeKeyBy c.projects id := by
        simp [TaskCache.get_project, hl, hnl]
      rw [hpost]
      exact lookupBy_removeKeyBy_self _ _
  · intro pid tid task ts hl hage
    have hnl : ¬ now - ts < c.ttl := by omega
    constructor
    · simp [TaskCache.get_task, hl, hnl]
    · have hpost : (c.get_task pid tid now).2.tasks =
          removeKeyBy c.tasks (pid, tid) := by
        simp [TaskCache.get_task, hl, hnl]
      rw [hpost]
      exact lookupBy_removeKeyBy_self _ _
  · intro id proj ts
    have hmm := mem_foldl_removeKeyBy
      ((c.projects.filter
        (fun q => decide (now - q.2.2 ≥ c.ttl))).map Prod.fst)
      c.projects (id, proj, ts)
    rw [show (c.cleanup_expired now).projects =
      ((c.projects.filter
        (fun q => decide (now - q.2.2 ≥ c.ttl))).map Prod.fst).foldl
          removeKeyBy c.projects from rfl, hmm]
    constructor
    · rintro ⟨hm, hc⟩
      refine ⟨hm, ?_⟩
      by_contra hge
      push_neg at hge
      exact hc (List.mem_map.2 ⟨(id, proj, ts),
        List.mem_filter.2 ⟨hm, by simpa using hge⟩, rfl⟩)
    · rintro ⟨hm, hlt⟩
      refine ⟨hm, ?_⟩
      intro hid
      rcases List.mem_map.1 hid with ⟨q, hq, hfst⟩
      obtain ⟨qk, qv⟩ := q
      rcases List.mem_filter.1 hq with ⟨hqm, hqc⟩
      simp only [decide_eq_true_eq] at hqc
      simp only at hfst
      subst hfst
      have hv : qv = (proj, ts) := nodup_keys_eq hpk hqm hm
      rw [hv] at hqc
      simp only at hqc
      omega
  · intro key task ts
    have hmm := mem_foldl_removeKeyBy
      ((c.tasks.filter
        (fun q => decide (now - q.2.2 ≥ c.ttl))).map Prod.fst)
      c.tasks (key, task, ts)
    rw [show (c.cleanup_expired now).tasks =
      ((c.tasks.filter
        (fun q => decide (now - q.2.2 ≥ c.ttl))).map Prod.fst).foldl
          removeKeyBy c.tasks from rfl, hmm]
    constructor
    · rintro ⟨hm, hc⟩
      refine ⟨hm, ?_⟩
      by_contra hge
      push_neg at hge
      exact hc (List.mem_map.2 ⟨(key, task, ts),
        List.mem_filter.2 ⟨hm, by simpa using hge⟩, rfl⟩)
    · rintro ⟨hm, hlt⟩
      refine ⟨hm, ?_⟩
      intro hid
      rcases List.mem_map.1 hid with ⟨q, hq, hfst⟩
      obtain ⟨qk, qv⟩ := q
      rcases List.mem_filter.1 hq with ⟨hqm, hqc⟩
      simp only [decide_eq_true_eq] at hqc
      simp only at hfst
      subst hfst
      have hv : qv = (task, ts) := nodup_keys_eq htk hqm hm
      rw [hv] at hqc
      simp only at hqc
      omega

/-- Witness for C8 at a concrete cache with one stale project and one stale
task entry, queried after the time-to-live elapsed. -/
theorem C8_cache_expiry_witness :
    ((exCache.projects.map Prod.fst).Nodup ∧
      (exCache.tasks.map Prod.fst).Nodup) ∧
    ((∀ id proj ts, lookupBy exCache.projects id = some (proj, ts) →
      20 - ts ≥ exCache.ttl →
      (exCache.get_project id 20).1 = none ∧
      lookupBy (exCache.get_project id 20).2.projects id = none) ∧
    (∀ pid tid task ts, lookupBy exCache.tasks (pid, tid) =
        some (task, ts) →
      20 - ts ≥ exCache.ttl →
      (exCache.get_task pid tid 20).1 = none ∧
      lookupBy (exCache.get_task pid tid 20).2.tasks (pid, tid) = none) ∧
    (∀ id proj ts, (id, proj, ts) ∈ (exCache.cleanup_expired 20).projects ↔
      ((id, proj, ts) ∈ exCache.projects ∧ 20 - ts < exCache.ttl)) ∧
    (∀ key task ts, (key, task, ts) ∈ (exCache.cleanup_expired 20).tasks ↔
      ((key, task, ts) ∈ exCache.tasks ∧ 20 - ts < exCache.ttl))) :=
  ⟨⟨by decide, by decide⟩, C8_cache_expiry exCache 20 (by decide) (by decide)⟩

/-- Claim C10: when the event channel is closed, the asynchronous
`execute_task` returns a `ChannelError` after having inserted the task into
the running index, so `is_task_running` reports true for it although no
event was sent and no body was spawned — the failed call does not roll back
its state change. -/
theorem C10_async_failed_send_keeps_running_entry (ex : AsyncTaskExecutor)
    (task : Task) (now : Nat) (channelOpen : Bool)
    (h : channelOpen = false) :
    (ex.execute_task task now channelOpen).1 =
      .error (.ChannelError "Failed to send task started event") ∧
    (ex.execute_task task now channelOpen).2.1.is_task_running task.id
      = true ∧
    (ex.execute_task task now channelOpen).2.2.1 = [] ∧
    (ex.execute_task task now channelOpen).2.2.2 = false := by
  subst h
  refine ⟨rfl, ?_, rfl, rfl⟩
  show (insertKeyBy ex.running_tasks task.id now).any
    (fun p => p.1 == task.id) = true
  exact any_insertKeyBy _ _ _

/-- Witness for C10 at a concrete idle executor and closed channel. -/
theorem C10_async_failed_send_witness :
    (false = false) ∧
    ((exAsync.execute_task exTask7 0 false).1 =
      .error (.ChannelError "Failed to send task started event") ∧
    (exAsync.execute_task exTask7 0 false).2.1.is_task_running exTask7.id
      = true ∧
    (exAsync.execute_task exTask7 0 false).2.2.1 = [] ∧
    (exAsync.execute_task exTask7 0 false).2.2.2 = false) :=
  ⟨rfl, C10_async_failed_send_keeps_running_entry exAsync exTask7 0 false rfl⟩

end TaskMaster
